import Mathlib

/-!
# leds-fd6551: a shallow embedding of the FD6551 / FD650 / TM1650 LED driver

The definitions below follow `src/leds-fd6551.c` function by function.

* C `unsigned int` values are natural numbers reduced modulo `2^32` where the
  source can wrap; a `char` handed to the bus is reduced modulo `2^8`.
* An `i2c_client *` is `Option Nat`: `none` is the NULL pointer, `some a` is a
  client bound to bus address `a`.
* The kernel services the driver calls for their effect (`i2c_smbus_write_byte`,
  `dev_err`, `i2c_unregister_device`) act on an explicit `Kernel` value that
  records what the driver asked for. The services it calls for their answer
  (`i2c_new_ancillary_device`, `kstrtouint`, the device-tree reads) are
  arguments of the functions that call them.
* The entry points the kernel calls on a bound device are the constructors of
  `Op`; `run` applies a sequence of them.
* Behaviour the C language leaves undefined (reading past the end of
  `ascii_to_seven`, dereferencing a NULL client, indexing past a fixed-size
  array, shifting by the width of the type or more) is an explicit `Fault`.
-/

namespace Fd6551

/-! ## Constants -/

def FD6551_MAX_LEDS : Nat := 8
def FD6551_MAX_BRIGHTNESS : Nat := 255
def FD6551_MAX_DIGITS : Nat := 4

def FD6551_DISPLAY_OFF : Nat := 0
/-- The macro `BIT(0)`. -/
def FD6551_DISPLAY_ON : Nat := 1 <<< 0

def FD6551_STATUS_ADDR : Nat := 0x24
def FD6551_ICONS_ADDR : Nat := 0x33
def FD6551_DIGITS_ADDR_BASE : Nat := 0x34

def ASCII_TABLE_OFFSET : Nat := 0x20

/-- Seven segment ascii conversion table, entry by entry as in the source. -/
def ascii_to_seven : List Nat := [
  0b00000000, /- (space) -/
  0b10000110, /- ! -/
  0b00100010, /- (double quote) -/
  0b01111110, /- # -/
  0b01101101, /- $ -/
  0b11010010, /- % -/
  0b01000110, /- & -/
  0b00100000, /- (apostrophe) -/
  0b00101001, /- ( -/
  0b00001011, /- ) -/
  0b00100001, /- * -/
  0b01110000, /- + -/
  0b00010000, /- , -/
  0b01000000, /- - -/
  0b10000000, /- . -/
  0b01010010, /- / -/
  0b00111111, /- 0 -/
  0b00000110, /- 1 -/
  0b01011011, /- 2 -/
  0b01001111, /- 3 -/
  0b01100110, /- 4 -/
  0b01101101, /- 5 -/
  0b01111101, /- 6 -/
  0b00000111, /- 7 -/
  0b01111111, /- 8 -/
  0b01101111, /- 9 -/
  0b00001001, /- : -/
  0b00001101, /- ; -/
  0b01100001, /- < -/
  0b01001000, /- = -/
  0b01000011, /- > -/
  0b11010011, /- ? -/
  0b01011111, /- @ -/
  0b01110111, /- A -/
  0b01111100, /- B -/
  0b00111001, /- C -/
  0b01011110, /- D -/
  0b01111001, /- E -/
  0b01110001, /- F -/
  0b00111101, /- G -/
  0b01110110, /- H -/
  0b00110000, /- I -/
  0b00011110, /- J -/
  0b01110101, /- K -/
  0b00111000, /- L -/
  0b00010101, /- M -/
  0b00110111, /- N -/
  0b00111111, /- O -/
  0b01110011, /- P -/
  0b01101011, /- Q -/
  0b00110011, /- R -/
  0b01101101, /- S -/
  0b01111000, /- T -/
  0b00111110, /- U -/
  0b00111110, /- V -/
  0b00101010, /- W -/
  0b01110110, /- X -/
  0b01101110, /- Y -/
  0b01011011, /- Z -/
  0b00111001, /- [ -/
  0b01100100, /- (backslash) -/
  0b00001111, /- ] -/
  0b00100011, /- ^ -/
  0b00001000, /- _ -/
  0b00000010, /- (backquote) -/
  0b01011111, /- a -/
  0b01111100, /- b -/
  0b01011000, /- c -/
  0b01011110, /- d -/
  0b01111011, /- e -/
  0b01110001, /- f -/
  0b01101111, /- g -/
  0b01110100, /- h -/
  0b00010000, /- i -/
  0b00001100, /- j -/
  0b01110101, /- k -/
  0b00110000, /- l -/
  0b00010100, /- m -/
  0b01010100, /- n -/
  0b01011100, /- o -/
  0b01110011, /- p -/
  0b01100111, /- q -/
  0b01010000, /- r -/
  0b01101101, /- s -/
  0b01111000, /- t -/
  0b00011100, /- u -/
  0b00011100, /- v -/
  0b00010100, /- w -/
  0b01110110, /- x -/
  0b01101110, /- y -/
  0b01011011, /- z -/
  0b01000110, /- (left brace) -/
  0b00110000, /- | -/
  0b01110000, /- (right brace) -/
  0b00000001, /- ~ -/
  0b00000000  /- (del) -/
]

/-- The macro `ARRAY_SIZE(ascii_to_seven) + ASCII_TABLE_OFFSET`. -/
def ASCII_MAX_CHAR_CODE : Nat := ascii_to_seven.length + ASCII_TABLE_OFFSET

/-! ## Machine arithmetic -/

/-- Number of values of a C `unsigned int`. -/
def UINT_MOD : Nat := 4294967296

/-- Subtraction of two `unsigned int` values, wrapping as C does. -/
def u32_sub (a b : Nat) : Nat := (a % UINT_MOD + UINT_MOD - b % UINT_MOD) % UINT_MOD

/-- Left shift of an `unsigned int`, bits leaving the word are dropped. -/
def u32_shl (a s : Nat) : Nat := (a <<< s) % UINT_MOD

/-- Bitwise complement of an `unsigned int`. -/
def u32_not (a : Nat) : Nat := UINT_MOD - 1 - a % UINT_MOD

/-! ## Data model -/

/-- The C type `struct fd6551_chip`. -/
structure fd6551_chip where
  addr_status : Nat
  addr_icons : Nat
  addr_digits_base : Nat
  has_icon_set : Bool
  digits : Nat
  brightness_levels : Nat
deriving DecidableEq, Repr

/-- The `fd650` descriptor; `addr_icons` is not initialised in the source and so is zero. -/
def fd650 : fd6551_chip :=
  { addr_status := FD6551_STATUS_ADDR
    addr_icons := 0
    addr_digits_base := FD6551_DIGITS_ADDR_BASE
    has_icon_set := false
    digits := 4
    brightness_levels := 8 }

/-- The `fd6551` descriptor. -/
def fd6551 : fd6551_chip :=
  { addr_status := FD6551_STATUS_ADDR
    addr_icons := FD6551_ICONS_ADDR
    addr_digits_base := FD6551_DIGITS_ADDR_BASE
    has_icon_set := true
    digits := 4
    brightness_levels := 8 }

/-- The match table `of_fd6551_leds_match`: compatible string and chip descriptor. -/
def of_fd6551_leds_match : List (String × fd6551_chip) :=
  [("fdhisi,fd6551", fd6551), ("fdhisi,fd650", fd650), ("titanmicro,tm1650", fd650)]

/-- A chip descriptor the driver can be bound with. -/
def supported (chip : fd6551_chip) : Prop :=
  chip ∈ of_fd6551_leds_match.map Prod.snd

instance (chip : fd6551_chip) : Decidable (supported chip) := by
  unfold supported; infer_instance

/-- The C type `struct fd6551_led` (the back pointer to the private data is passed
explicitly). -/
structure fd6551_led where
  bit : Nat
  i2c_client : Option Nat
deriving DecidableEq, Repr

/-- The C type `struct fd6551_priv`. -/
structure fd6551_priv where
  chip_data : fd6551_chip
  leds : List fd6551_led
  i2c_client_status : Option Nat
  i2c_client_icon_set : Option Nat
  i2c_client_digits : List (Option Nat)
  brightness : Nat
  icon_set_bitmask : Nat
  text : List Nat
deriving DecidableEq, Repr

/-- The messages the driver hands to `dev_err`. -/
inductive ErrMsg where
  | char_write (idx : Nat) (err : Int)
  | too_many_children
  | icon_set_claim (err : Int)
  | missing_bit
  | led_register
  | digit_claim (idx : Nat) (err : Int)
  | create_max_brightness (err : Int)
  | create_brightness (err : Int)
  | create_chars (err : Int)
deriving DecidableEq, Repr

/-- What the driver has asked of the kernel so far, and how the bus will answer next.

* `writes`: every `i2c_smbus_write_byte` issued, oldest first, as (address, byte);
* `outcomes`: the return codes of the transfers still to come (0 is success, a
  negative errno a failure); once the list is used up every transfer succeeds;
* `errlog`: the `dev_err` messages, oldest first;
* `unregistered`: the addresses passed to `i2c_unregister_device`, oldest first. -/
structure Kernel where
  writes : List (Nat × Nat)
  outcomes : List Int
  errlog : List ErrMsg
  unregistered : List Nat
deriving DecidableEq, Repr

deriving instance DecidableEq for Except

/-- Behaviour that C leaves undefined. -/
inductive Fault where
  | table_overrun (idx : Nat)
  | null_client
  | array_overrun (idx : Nat)
  | uninit_led
  | shift_overrun (nr : Nat)
deriving DecidableEq, Repr

/-- The call `dev_err`: one more message in the kernel log. -/
def dev_err (k : Kernel) (msg : ErrMsg) : Kernel :=
  { k with errlog := k.errlog ++ [msg] }

/-! ## Bus access -/

/-- The function `fd6551_write`: one `i2c_smbus_write_byte` of the low eight bits of `value`. -/
def fd6551_write (i2c_client : Option Nat) (value : Nat) (k : Kernel) :
    Except Fault (Int × Kernel) :=
  match i2c_client with
  | none => .error .null_client
  | some a =>
    .ok (k.outcomes.headD 0,
         { k with writes := k.writes ++ [(a, value % 256)], outcomes := k.outcomes.tail })

/-- The function `fd6551_reset_leds`. -/
def fd6551_reset_leds (i2c_client : Option Nat) (k : Kernel) : Except Fault (Int × Kernel) :=
  fd6551_write i2c_client 0x0 k

/-- The local `value` of `fd6551_set_status`, from `brightness_levels` and `brightness`. -/
def status_value (brightness_levels brightness : Nat) : Nat :=
  if brightness = 0 then
    FD6551_DISPLAY_OFF
  else
    FD6551_DISPLAY_ON ||| u32_shl (u32_sub brightness_levels brightness) 1

/-- The function `fd6551_set_status`. -/
def fd6551_set_status (priv : fd6551_priv) (k : Kernel) : Except Fault (Int × Kernel) :=
  fd6551_write priv.i2c_client_status
    (status_value priv.chip_data.brightness_levels priv.brightness) k

/-! ## The `chars` attribute -/

/-- The table index `chars_store` computes for the character `ch` (an `unsigned char`). -/
def chars_index (ch : Nat) : Nat :=
  (max (min ch ASCII_MAX_CHAR_CODE) ASCII_TABLE_OFFSET - ASCII_TABLE_OFFSET) % 256

/-- The read `ascii_to_seven[(unsigned int)ch]`. -/
def ascii_lookup (idx : Nat) : Except Fault Nat :=
  match ascii_to_seven[idx]? with
  | some bits => .ok (bits % 256)
  | none => .error (.table_overrun idx)

/-- The character `chars_store` takes for position `idx`: the `unsigned char` read from
`buf` when `idx < count`, a space otherwise (the local `ch` before it is clamped). -/
def chars_store_ch (buf : List Nat) (count idx : Nat) : Nat :=
  if idx < count then buf.getD idx 0 % 256 else ASCII_TABLE_OFFSET

/-- One round of the loop of `chars_store`, for position `idx`. -/
def chars_store_round (buf : List Nat) (count idx : Nat) (priv : fd6551_priv) (k : Kernel) :
    Except Fault (fd6551_priv × Kernel) :=
  let ch := chars_store_ch buf count idx
  if idx < FD6551_MAX_DIGITS then
    let priv1 := { priv with text := priv.text.set idx ch }
    match ascii_lookup (chars_index ch) with
    | .error f => .error f
    | .ok ch_bits =>
      match fd6551_write (priv1.i2c_client_digits.getD idx none) ch_bits k with
      | .error f => .error f
      | .ok (err, k1) =>
        .ok (priv1, if err ≠ 0 then dev_err k1 (.char_write idx err) else k1)
  else
    .error (.array_overrun idx)

/-- The loop of `chars_store`, run for `n` more rounds starting at `idx`. -/
def chars_store_loop (buf : List Nat) (count : Nat) :
    Nat → Nat → fd6551_priv → Kernel → Except Fault (fd6551_priv × Kernel)
  | 0, _, priv, k => .ok (priv, k)
  | n + 1, idx, priv, k =>
    match chars_store_round buf count idx priv k with
    | .error f => .error f
    | .ok (priv1, k1) => chars_store_loop buf count n (idx + 1) priv1 k1

/-- The function `chars_store`: the `ssize_t` it returns (always `count`) together with the
new state. The sysfs core passes a buffer holding `count` bytes. -/
def chars_store (priv : fd6551_priv) (buf : List Nat) (count : Nat) (k : Kernel) :
    Except Fault (Int × fd6551_priv × Kernel) :=
  match chars_store_loop buf count priv.chip_data.digits 0 priv k with
  | .error f => .error f
  | .ok (priv1, k1) => .ok ((count : Int), priv1, k1)

/-- The byte `chars_store` puts on the bus for position `idx` when the table read is in range. -/
def chars_store_bits (buf : List Nat) (count idx : Nat) : Nat :=
  ascii_to_seven.getD (chars_store_ch buf count idx - ASCII_TABLE_OFFSET) 0

/-- What one round of `chars_store` adds to the kernel log when the transfer returns `err`. -/
def char_write_msg (idx : Nat) (err : Int) : List ErrMsg :=
  if err ≠ 0 then [.char_write idx err] else []

/-! ## The `max_brightness` and `brightness` attributes -/

/-- An `unsigned int` printed with the conversion `%d`, that is read as an `int`. -/
def int_of_u32 (v : Nat) : Int :=
  if v % UINT_MOD < 2147483648 then
    (v % UINT_MOD : Nat)
  else
    (v % UINT_MOD : Nat) - (UINT_MOD : Int)

/-- The call `snprintf(buf, 4, "%d", v)`: the characters stored in `buf` (at most three, the
fourth byte is the terminator) and the value returned (the untruncated length). -/
def snprintf_4_d (v : Nat) : List Char × Int :=
  let s := (toString (int_of_u32 v)).toList
  (s.take 3, (s.length : Int))

/-- The function `max_brightness_show`. -/
def max_brightness_show (priv : fd6551_priv) : List Char × Int :=
  snprintf_4_d priv.chip_data.brightness_levels

/-- The function `brightness_show`. -/
def brightness_show (priv : fd6551_priv) : List Char × Int :=
  snprintf_4_d priv.brightness

/-- The function `brightness_store`. The result of `kstrtouint(buf, 0, &brightness)` is the
argument `parsed`: `.error ret` for a non-zero return code, `.ok v` for the parsed
`unsigned int`. -/
def brightness_store (priv : fd6551_priv) (parsed : Except Int Nat) (count : Nat) (k : Kernel) :
    Except Fault (Int × fd6551_priv × Kernel) :=
  match parsed with
  | .error ret => .ok (ret, priv, k)
  | .ok brightness =>
    let priv1 :=
      { priv with
        brightness := min (max (brightness % UINT_MOD) 0) priv.chip_data.brightness_levels }
    match fd6551_set_status priv1 k with
    | .error f => .error f
    | .ok (_, k1) => .ok ((count : Int), priv1, k1)

/-! ## Power -/

/-- The function `fd6551_set_on`. -/
def fd6551_set_on (priv : fd6551_priv) (k : Kernel) : Except Fault (Int × fd6551_priv × Kernel) :=
  let priv1 := { priv with brightness := priv.chip_data.brightness_levels }
  match fd6551_set_status priv1 k with
  | .error f => .error f
  | .ok (ret, k1) => .ok (ret, priv1, k1)

/-- The function `fd6551_set_off`. -/
def fd6551_set_off (priv : fd6551_priv) (k : Kernel) : Except Fault (Int × fd6551_priv × Kernel) :=
  let priv1 := { priv with brightness := 0 }
  match fd6551_set_status priv1 k with
  | .error f => .error f
  | .ok (ret, k1) => .ok (ret, priv1, k1)

/-! ## Icons -/

/-- The width of `unsigned long`: the kernel constant `BITS_PER_LONG` of a 64-bit target. -/
def BITS_PER_LONG : Nat := 64

/-- The value of `1UL << nr` once it is stored in an `unsigned int`, for a shift count
below `BITS_PER_LONG`: the bits from 32 on are dropped. -/
def bit_mask (nr : Nat) : Nat := (1 <<< nr) % UINT_MOD

/-- The macro `BIT(nr)`, that is `1UL << nr`, assigned to the `unsigned int mask`. A shift
by `BITS_PER_LONG` or more is undefined in C: a `Fault`. -/
def BIT (nr : Nat) : Except Fault Nat :=
  if nr < BITS_PER_LONG then .ok (bit_mask nr) else .error (.shift_overrun nr)

/-- The read-modify-write of `fd6551_led_brightness_set`: the local `value` computed from
the stored bitmask, the local `mask` and `is_led_on`. -/
def icon_value (icon_set_bitmask mask : Nat) (is_led_on : Bool) : Nat :=
  let value := icon_set_bitmask % UINT_MOD
  let value := value &&& u32_not mask
  value ||| (if is_led_on then mask else 0)

/-- The function `fd6551_led_brightness_set`; `priv` is `led->priv`, `brightness` the
requested intensity. -/
def fd6551_led_brightness_set (priv : fd6551_priv) (led : fd6551_led) (brightness : Nat)
    (k : Kernel) : Except Fault (Int × fd6551_priv × Kernel) :=
  let is_led_on : Bool := decide (brightness > 0)
  match BIT led.bit with
  | .error f => .error f
  | .ok mask =>
    let value := icon_value priv.icon_set_bitmask mask is_led_on
    let priv1 := { priv with icon_set_bitmask := value }
    match fd6551_write led.i2c_client value k with
    | .error f => .error f
    | .ok (ret, k1) => .ok (ret, priv1, k1)

/-- An available child node of the device tree, as `fd6551_init_leds` sees it: what
`of_property_read_u32(child, "bit", ...)` yields, and what
`devm_led_classdev_register_ext` returns for the LED. -/
structure of_child where
  bit : Except Int Nat
  register : Int
deriving DecidableEq, Repr

def EINVAL : Int := 22

/-- The loop of `fd6551_init_leds` over the remaining children, `idx` LEDs being filled
already. On a missing `bit` property the source formats `led->ldev.name` through the
pointer `led`, which has no value yet in that round: a `Fault`. -/
def fd6551_init_leds_loop (i2c_client_icon_set : Nat) :
    List of_child → Nat → fd6551_priv → Kernel → Except Fault (Int × fd6551_priv × Kernel)
  | [], _, priv, k => .ok (0, priv, k)
  | child :: rest, idx, priv, k =>
    match child.bit with
    | .error _ => .error .uninit_led
    | .ok bit =>
      if idx < FD6551_MAX_LEDS then
        let led : fd6551_led := { bit := bit % UINT_MOD, i2c_client := some i2c_client_icon_set }
        let priv1 := { priv with leds := priv.leds.set idx led }
        if child.register < 0 then
          .ok (child.register, priv1, dev_err k .led_register)
        else
          fd6551_init_leds_loop i2c_client_icon_set rest (idx + 1) priv1 k
      else
        .error (.array_overrun idx)

/-- The function `fd6551_init_leds`; `children` are the available child nodes of the device
node and `ancillary` answers `i2c_new_ancillary_device` as in `fd6551_init_digits_loop`. -/
def fd6551_init_leds (ancillary : Nat → Except Int Nat) (priv : fd6551_priv)
    (children : List of_child) (chip_data : fd6551_chip) (k : Kernel) :
    Except Fault (Int × fd6551_priv × Kernel) :=
  if !priv.chip_data.has_icon_set then
    .ok (0, priv, k)
  else if children.length = 0 then
    .ok (0, priv, k)
  else if children.length > FD6551_MAX_LEDS then
    .ok (-EINVAL, priv, dev_err k .too_many_children)
  else
    match ancillary chip_data.addr_icons with
    | .error err => .ok (err, priv, dev_err k (.icon_set_claim err))
    | .ok i2c_client_icon_set =>
      let priv1 := { priv with i2c_client_icon_set := some i2c_client_icon_set }
      match fd6551_reset_leds (some i2c_client_icon_set) k with
      | .error f => .error f
      | .ok (_, k1) => fd6551_init_leds_loop i2c_client_icon_set children 0 priv1 k1

/-! ## Digit initialisation -/

/-- The logical slot `fd6551_init_digits` stores the client of round `idx` in
(the local variable `addr`). -/
def digit_slot (digits : Nat) (reversed : Bool) (idx : Nat) : Nat :=
  if reversed then u32_sub digits idx else idx - 1

/-- The loop of `fd6551_init_digits`, run for `n` more rounds starting at `idx`.
`ancillary a` is the answer of `i2c_new_ancillary_device` when asked for default address `a`:
the address of the new client, or an error code. -/
def fd6551_init_digits_loop (ancillary : Nat → Except Int Nat) (chip_data : fd6551_chip)
    (reversed : Bool) :
    Nat → Nat → fd6551_priv → Kernel → Except Fault (Int × fd6551_priv × Kernel)
  | 0, _, priv, k => .ok (0, priv, k)
  | n + 1, idx, priv, k =>
    match ancillary (chip_data.addr_digits_base + idx - 1) with
    | .error err => .ok (err, priv, dev_err k (.digit_claim idx err))
    | .ok i2c_client_digit =>
      let addr := digit_slot priv.chip_data.digits reversed idx
      if addr < FD6551_MAX_DIGITS then
        let priv1 :=
          { priv with i2c_client_digits := priv.i2c_client_digits.set addr (some i2c_client_digit) }
        match fd6551_reset_leds (some i2c_client_digit) k with
        | .error f => .error f
        | .ok (_, k1) => fd6551_init_digits_loop ancillary chip_data reversed n (idx + 1) priv1 k1
      else
        .error (.array_overrun addr)

/-- The function `fd6551_init_digits`; `reversed` is the device-tree property
`digits-reversed`. -/
def fd6551_init_digits (ancillary : Nat → Except Int Nat) (priv : fd6551_priv)
    (reversed : Bool) (chip_data : fd6551_chip) (k : Kernel) :
    Except Fault (Int × fd6551_priv × Kernel) :=
  fd6551_init_digits_loop ancillary chip_data reversed priv.chip_data.digits 1 priv k

/-- The private data as `fd6551_probe` sets it up before any initialisation step:
zeroed by `devm_kzalloc`, then `chip_data` and `i2c_client_status` assigned. -/
def probe_priv (chip_data : fd6551_chip) (i2c_client_status : Nat) : fd6551_priv :=
  { chip_data := chip_data
    leds := List.replicate FD6551_MAX_LEDS { bit := 0, i2c_client := none }
    i2c_client_status := some i2c_client_status
    i2c_client_icon_set := none
    i2c_client_digits := List.replicate FD6551_MAX_DIGITS none
    brightness := 0
    icon_set_bitmask := 0
    text := List.replicate FD6551_MAX_DIGITS 0 }

/-! ## Teardown -/

/-- The digit loop of `fd6551_remove`, run for `n` more rounds starting at `idx`. -/
def fd6551_remove_digits (priv : fd6551_priv) : Nat → Nat → Kernel → Except Fault Kernel
  | 0, _, k => .ok k
  | n + 1, idx, k =>
    match priv.i2c_client_digits.getD idx none with
    | none => fd6551_remove_digits priv n (idx + 1) k
    | some a =>
      match fd6551_reset_leds (some a) k with
      | .error f => .error f
      | .ok (_, k1) =>
        fd6551_remove_digits priv n (idx + 1) { k1 with unregistered := k1.unregistered ++ [a] }

/-- The function `fd6551_remove` (the three `device_remove_file` calls touch neither the bus
nor the state). -/
def fd6551_remove (priv : fd6551_priv) (k : Kernel) : Except Fault (fd6551_priv × Kernel) :=
  let off : Except Fault (fd6551_priv × Kernel) :=
    match priv.i2c_client_status with
    | none => .ok (priv, k)
    | some _ =>
      match fd6551_set_off priv k with
      | .error f => .error f
      | .ok (_, priv1, k1) => .ok (priv1, k1)
  match off with
  | .error f => .error f
  | .ok (priv1, k1) =>
    let icons : Except Fault Kernel :=
      match priv1.i2c_client_icon_set with
      | none => .ok k1
      | some a =>
        match fd6551_reset_leds (some a) k1 with
        | .error f => .error f
        | .ok (_, k2) => .ok { k2 with unregistered := k2.unregistered ++ [a] }
    match icons with
    | .error f => .error f
    | .ok k2 =>
      match fd6551_remove_digits priv1 FD6551_MAX_DIGITS 0 k2 with
      | .error f => .error f
      | .ok k3 => .ok (priv1, k3)

/-! ## Reading the text back -/

/-- The call `strncpy(dst, src, n)` with an array `src` of at least `n` bytes: the `n` bytes
left in `dst`. The copy stops at the first NUL among the first `n` bytes of `src`; the rest
of `dst` is filled with NUL. -/
def strncpy (src : List Nat) (n : Nat) : List Nat :=
  let s := (src.take n).takeWhile (fun c => c ≠ 0)
  s ++ List.replicate (n - s.length) 0

/-- The call `strlen(priv->text)`: the position of the first NUL in the array. The array has
no room for a terminator of its own; when none of its bytes is NUL the scan leaves the
array, a `Fault`. -/
def strlen_text (text : List Nat) : Except Fault Nat :=
  if text.indexOf 0 < text.length then .ok (text.indexOf 0)
  else .error (.array_overrun text.length)

/-- The bytes `chars_show` leaves in `buf` (its `strncpy`). -/
def chars_show_buf (priv : fd6551_priv) : List Nat :=
  strncpy priv.text FD6551_MAX_DIGITS

/-- The function `chars_show`: the bytes put in `buf` and the length returned. -/
def chars_show (priv : fd6551_priv) : Except Fault (List Nat × Int) :=
  match strlen_text priv.text with
  | .error f => .error f
  | .ok n => .ok (chars_show_buf priv, (n : Int))

/-! ## Probe -/

/-- The device node `np`: its available children and the property `digits-reversed`. -/
structure of_node where
  children : List of_child
  digits_reversed : Bool
deriving DecidableEq, Repr

def ENODEV : Int := 19
def ENOMEM : Int := 12

/-- The steps of `fd6551_probe` that follow the two initialisations: the three
`device_create_file` calls, whose return codes are `create_file 0`, `create_file 1` and
`create_file 2` (for `max_brightness`, `brightness` and `chars`), then `fd6551_set_on`.
The result is the error code that sends the probe to `error_exit`, or `0`. -/
def fd6551_probe_files (create_file : Nat → Int) (priv : fd6551_priv) (k : Kernel) :
    Except Fault (Int × fd6551_priv × Kernel) :=
  if create_file 0 ≠ 0 then
    .ok (create_file 0, priv, dev_err k (.create_max_brightness (create_file 0)))
  else if create_file 1 ≠ 0 then
    .ok (create_file 1, priv, dev_err k (.create_brightness (create_file 1)))
  else if create_file 2 ≠ 0 then
    .ok (create_file 2, priv, dev_err k (.create_chars (create_file 2)))
  else
    match fd6551_set_on priv k with
    | .error f => .error f
    | .ok (err, priv1, k1) => .ok (if err < 0 then err else 0, priv1, k1)

/-- The body of `fd6551_probe` once the private data exists, up to the label `error_exit`:
the error code to leave with, or `0`. -/
def fd6551_probe_steps (ancillary : Nat → Except Int Nat) (create_file : Nat → Int)
    (np : of_node) (chip_data : fd6551_chip) (priv : fd6551_priv) (k : Kernel) :
    Except Fault (Int × fd6551_priv × Kernel) :=
  match fd6551_init_leds ancillary priv np.children chip_data k with
  | .error f => .error f
  | .ok (err, priv1, k1) =>
    if err ≠ 0 then .ok (err, priv1, k1)
    else
      match fd6551_init_digits ancillary priv1 np.digits_reversed chip_data k1 with
      | .error f => .error f
      | .ok (err, priv2, k2) =>
        if err ≠ 0 then .ok (err, priv2, k2)
        else fd6551_probe_files create_file priv2 k2

/-- The function `fd6551_probe`. Its inputs are the address of the status client, the device
node (`dev_of_node`), the match data (`device_get_match_data`), whether `devm_kzalloc`
succeeds, and the answers of `i2c_new_ancillary_device` and `device_create_file`. It
returns the error code and, when the private data was allocated, its final value. -/
def fd6551_probe (i2c_client_status : Nat) (np : Option of_node)
    (chip_data : Option fd6551_chip) (kzalloc_ok : Bool)
    (ancillary : Nat → Except Int Nat) (create_file : Nat → Int) (k : Kernel) :
    Except Fault (Int × Option fd6551_priv × Kernel) :=
  match np with
  | none => .ok (-ENODEV, none, k)
  | some np =>
    match chip_data with
    | none => .ok (-ENODEV, none, k)
    | some chip_data =>
      if !kzalloc_ok then .ok (-ENOMEM, none, k)
      else
        let priv := probe_priv chip_data i2c_client_status
        match fd6551_probe_steps ancillary create_file np chip_data priv k with
        | .error f => .error f
        | .ok (err, priv1, k1) =>
          if err = 0 then .ok (0, some priv1, k1)
          else
            match fd6551_remove priv1 k1 with
            | .error f => .error f
            | .ok (priv2, k2) => .ok (err, some priv2, k2)

/-! ## Sequences of operations -/

/-- The entry points through which the kernel drives a bound device: the LED class
(`fd6551_led_brightness_set` on the LED number `led` of `priv->leds`), the attributes
`chars` and `brightness`, the two power helpers and `fd6551_remove`. -/
inductive Op where
  | set_icon (led : Nat) (brightness : Nat)
  | set_text (buf : List Nat) (count : Nat)
  | set_brightness (parsed : Except Int Nat) (count : Nat)
  | power_on
  | power_off
  | teardown
deriving DecidableEq, Repr

/-- One operation on the state. `nleds` is the number of LEDs that `fd6551_init_leds`
registered: `set_icon` reaches the driver only for an LED number below it. -/
def step (nleds : Nat) (op : Op) (priv : fd6551_priv) (k : Kernel) :
    Except Fault (fd6551_priv × Kernel) :=
  match op with
  | .set_icon led brightness =>
    if led < nleds then
      match priv.leds[led]? with
      | none => .error (.array_overrun led)
      | some l =>
        match fd6551_led_brightness_set priv l brightness k with
        | .error f => .error f
        | .ok (_, priv1, k1) => .ok (priv1, k1)
    else .ok (priv, k)
  | .set_text buf count =>
    match chars_store priv buf count k with
    | .error f => .error f
    | .ok (_, priv1, k1) => .ok (priv1, k1)
  | .set_brightness parsed count =>
    match brightness_store priv parsed count k with
    | .error f => .error f
    | .ok (_, priv1, k1) => .ok (priv1, k1)
  | .power_on =>
    match fd6551_set_on priv k with
    | .error f => .error f
    | .ok (_, priv1, k1) => .ok (priv1, k1)
  | .power_off =>
    match fd6551_set_off priv k with
    | .error f => .error f
    | .ok (_, priv1, k1) => .ok (priv1, k1)
  | .teardown => fd6551_remove priv k

/-- A sequence of operations, one after the other. -/
def run (nleds : Nat) : List Op → fd6551_priv → Kernel → Except Fault (fd6551_priv × Kernel)
  | [], priv, k => .ok (priv, k)
  | op :: ops, priv, k =>
    match step nleds op priv k with
    | .error f => .error f
    | .ok (priv1, k1) => run nleds ops priv1 k1

/-! ## The inverse of the status byte -/

/-- The inverse formula of the specification for the status byte `v`: brightness `0` when
the display-on bit is clear, `brightness_levels - (v >> 1)` otherwise. The driver never
reads the register back; the formula is stated to be compared with `status_value`. -/
def brightness_of_status (brightness_levels v : Nat) : Nat :=
  if v &&& FD6551_DISPLAY_ON = 0 then 0 else brightness_levels - (v >>> 1)

/-! ## Sample states -/

/-- A kernel that has seen nothing yet and whose transfers all succeed. -/
def quiet : Kernel := { writes := [], outcomes := [], errlog := [], unregistered := [] }

/-- A `fd650` display after a successful probe without `digits-reversed`. -/
def fd650_ready : fd6551_priv :=
  { chip_data := fd650
    leds := List.replicate FD6551_MAX_LEDS { bit := 0, i2c_client := none }
    i2c_client_status := some 0x24
    i2c_client_icon_set := none
    i2c_client_digits := [some 0x34, some 0x35, some 0x36, some 0x37]
    brightness := 8
    icon_set_bitmask := 0
    text := [0, 0, 0, 0] }

/-- A `fd6551` display after a successful probe with one icon, on bit 3. -/
def fd6551_ready : fd6551_priv :=
  { chip_data := fd6551
    leds := ({ bit := 3, i2c_client := some 0x33 } : fd6551_led) ::
      List.replicate 7 { bit := 0, i2c_client := none }
    i2c_client_status := some 0x24
    i2c_client_icon_set := some 0x33
    i2c_client_digits := [some 0x34, some 0x35, some 0x36, some 0x37]
    brightness := 8
    icon_set_bitmask := 0
    text := [0, 0, 0, 0] }

/-- A kernel whose next transfer fails with `-EIO`. -/
def flaky : Kernel := { writes := [], outcomes := [-5], errlog := [], unregistered := [] }

/-- The answers of `i2c_new_ancillary_device` when the addresses from `0x36` on are busy. -/
def two_granted (a : Nat) : Except Int Nat :=
  if a < 0x36 then .ok a else .error (-16)

/-- A `fd650` whose probe stopped after the status address and two digit addresses. -/
def half_claimed : fd6551_priv :=
  { probe_priv fd650 0x24 with i2c_client_digits := [some 0x34, some 0x35, none, none] }

/-- The `fd6551` display with one icon on bit 3, initialised but not yet powered on. -/
def fd6551_fresh : fd6551_priv := { fd6551_ready with brightness := 0 }

/-- A device node with one icon, on bit 3, and digits in plain order. -/
def one_icon : of_node :=
  { children := [{ bit := .ok 3, register := 0 }], digits_reversed := false }

/-- A ready `fd650` whose stored text is `WXYZ`. -/
def fd650_wxyz : fd6551_priv := { fd650_ready with text := [0x57, 0x58, 0x59, 0x5A] }

/-- A device node whose only icon has bit index 9. -/
def icon_bit9 : of_node :=
  { children := [{ bit := .ok 9, register := 0 }], digits_reversed := false }

/-- A device node with two icons on the same bit index 3. -/
def icons_twice : of_node :=
  { children := [{ bit := .ok 3, register := 0 }, { bit := .ok 3, register := 0 }]
    digits_reversed := false }

/-- A device node whose only icon has bit index 67. -/
def icon_bit67 : of_node :=
  { children := [{ bit := .ok 67, register := 0 }], digits_reversed := false }

/-- The `fd6551` display after a successful probe with the device node `icon_bit67`. -/
def fd6551_bit67 : fd6551_priv :=
  { fd6551_ready with
    leds := ({ bit := 67, i2c_client := some 0x33 } : fd6551_led) ::
      List.replicate 7 { bit := 0, i2c_client := none } }

/-! # Theorems -/

/-! ## The table and the clamp -/

theorem ascii_to_seven_length : ascii_to_seven.length = 96 := rfl

theorem ascii_to_seven_byte : ∀ x ∈ ascii_to_seven, x < 256 := by decide

theorem ascii_getD_lt (i : Nat) : ascii_to_seven.getD i 0 < 256 := by
  rw [List.getD_eq_getElem?_getD]
  by_cases h : i < ascii_to_seven.length
  · rw [List.getElem?_eq_getElem h]
    exact ascii_to_seven_byte _ (List.getElem_mem h)
  · rw [List.getElem?_eq_none (by omega)]
    decide

theorem chars_index_le (ch : Nat) : chars_index ch ≤ 96 := by
  simp only [chars_index, ASCII_MAX_CHAR_CODE, ASCII_TABLE_OFFSET, ascii_to_seven_length]
  omega

theorem chars_index_of_le (ch : Nat) (h : ch ≤ 0x7F) : chars_index ch = ch - 0x20 := by
  simp only [chars_index, ASCII_MAX_CHAR_CODE, ASCII_TABLE_OFFSET, ascii_to_seven_length]
  omega

theorem chars_index_of_ge (ch : Nat) (h : 0x80 ≤ ch) : chars_index ch = 96 := by
  simp only [chars_index, ASCII_MAX_CHAR_CODE, ASCII_TABLE_OFFSET, ascii_to_seven_length]
  omega

theorem ascii_lookup_of_lt (idx : Nat) (h : idx < 96) :
    ascii_lookup idx = .ok (ascii_to_seven.getD idx 0) := by
  have hl : idx < ascii_to_seven.length := by rw [ascii_to_seven_length]; exact h
  have hb : ascii_to_seven[idx] < 256 := ascii_to_seven_byte _ (List.getElem_mem hl)
  simp only [ascii_lookup, List.getElem?_eq_getElem hl, List.getD_eq_getElem?_getD,
    Option.getD_some]
  rw [Nat.mod_eq_of_lt hb]

theorem ascii_lookup_of_ge (idx : Nat) (h : 96 ≤ idx) :
    ascii_lookup idx = .error (.table_overrun idx) := by
  have hl : ascii_to_seven.length ≤ idx := by rw [ascii_to_seven_length]; exact h
  simp only [ascii_lookup, List.getElem?_eq_none hl]

/-! ## `chars_store` -/

/-- One round of `chars_store` on a populated slot and a character up to `0x7F`. -/
theorem chars_store_round_ok (buf : List Nat) (count idx : Nat) (priv : fd6551_priv)
    (k : Kernel) (a : Nat) (hidx : idx < FD6551_MAX_DIGITS)
    (hch : chars_store_ch buf count idx ≤ 0x7F)
    (ha : priv.i2c_client_digits.getD idx none = some a) :
    chars_store_round buf count idx priv k =
      .ok ({ priv with text := priv.text.set idx (chars_store_ch buf count idx) },
        { writes := k.writes ++ [(a, chars_store_bits buf count idx)]
          outcomes := k.outcomes.tail
          errlog := k.errlog ++ char_write_msg idx (k.outcomes.headD 0)
          unregistered := k.unregistered }) := by
  have hlook : ascii_lookup (chars_index (chars_store_ch buf count idx)) =
      .ok (ascii_to_seven.getD (chars_store_ch buf count idx - 0x20) 0) := by
    rw [chars_index_of_le _ hch]
    exact ascii_lookup_of_lt _ (by omega)
  unfold chars_store_round
  simp only [hidx, if_true, hlook, ha, fd6551_write, Nat.mod_eq_of_lt (ascii_getD_lt _),
    chars_store_bits, ASCII_TABLE_OFFSET, char_write_msg, dev_err]
  split <;> simp

/-- The loop of `chars_store` on populated slots and characters up to `0x7F`: it runs to the
end whatever the transfers return, and this is what it leaves behind. -/
theorem chars_store_loop_ok (buf : List Nat) (count : Nat) :
    ∀ (n idx : Nat) (priv : fd6551_priv) (k : Kernel),
      idx + n ≤ FD6551_MAX_DIGITS →
      (∀ i, idx ≤ i → i < idx + n → chars_store_ch buf count i ≤ 0x7F) →
      (∀ i, idx ≤ i → i < idx + n → ∃ a, priv.i2c_client_digits.getD i none = some a) →
      ∃ priv1 k1, chars_store_loop buf count n idx priv k = .ok (priv1, k1) ∧
        priv1.chip_data = priv.chip_data ∧ priv1.leds = priv.leds ∧
        priv1.i2c_client_status = priv.i2c_client_status ∧
        priv1.i2c_client_icon_set = priv.i2c_client_icon_set ∧
        priv1.i2c_client_digits = priv.i2c_client_digits ∧
        priv1.brightness = priv.brightness ∧
        priv1.icon_set_bitmask = priv.icon_set_bitmask ∧
        k1.writes = k.writes ++ (List.range' idx n).map (fun i =>
          ((priv.i2c_client_digits.getD i none).getD 0, chars_store_bits buf count i)) ∧
        k1.outcomes = k.outcomes.drop n ∧
        k1.unregistered = k.unregistered ∧
        k1.errlog = k.errlog ++ (List.range' idx n).flatMap (fun i =>
          char_write_msg i (k.outcomes.getD (i - idx) 0)) := by
  intro n
  induction n with
  | zero =>
    intro idx priv k _ _ _
    exact ⟨priv, k, rfl, rfl, rfl, rfl, rfl, rfl, rfl, rfl, by simp, by simp, rfl, by simp⟩
  | succ n ih =>
    intro idx priv k hn hch hdig
    have hidx : idx < FD6551_MAX_DIGITS := by omega
    obtain ⟨a, ha⟩ := hdig idx (Nat.le_refl _) (by omega)
    have hround := chars_store_round_ok buf count idx priv k a hidx
      (hch idx (Nat.le_refl _) (by omega)) ha
    obtain ⟨priv1, k1, hrun, h1, h2, h3, h4, h5, h6, h7, hw, ho, hu, he⟩ :=
      ih (idx + 1) { priv with text := priv.text.set idx (chars_store_ch buf count idx) }
        { writes := k.writes ++ [(a, chars_store_bits buf count idx)]
          outcomes := k.outcomes.tail
          errlog := k.errlog ++ char_write_msg idx (k.outcomes.headD 0)
          unregistered := k.unregistered }
        (by omega) (fun i h1 h2 => hch i (by omega) (by omega))
        (fun i h1 h2 => hdig i (by omega) (by omega))
    refine ⟨priv1, k1, ?_, h1, h2, h3, h4, h5, h6, h7, ?_, ?_, hu, ?_⟩
    · simp only [chars_store_loop, hround]
      exact hrun
    · rw [hw]
      simp only [List.range'_succ, List.map_cons, ha, Option.getD_some, List.append_assoc,
        List.singleton_append]
    · rw [ho]
      simp
    · rw [he]
      simp only [List.range'_succ, List.flatMap_cons, List.append_assoc, Nat.sub_self]
      congr 2
      · cases k.outcomes <;> simp
      · apply List.flatMap_congr
        intro i hi
        have hge : idx + 1 ≤ i := (List.mem_range'_1.mp hi).1
        have hsub : i - idx = (i - (idx + 1)) + 1 := by omega
        rw [hsub]
        cases k.outcomes <;> simp

/-- The loop of `chars_store` reads `buf` only at the positions below `FD6551_MAX_DIGITS`. -/
theorem chars_store_loop_congr (buf buf2 : List Nat) (count : Nat)
    (h : ∀ i, i < FD6551_MAX_DIGITS → buf2.getD i 0 = buf.getD i 0) :
    ∀ (n idx : Nat) (priv : fd6551_priv) (k : Kernel),
      chars_store_loop buf2 count n idx priv k = chars_store_loop buf count n idx priv k := by
  intro n
  induction n with
  | zero => intro idx priv k; rfl
  | succ n ih =>
    intro idx priv k
    have hround : chars_store_round buf2 count idx priv k =
        chars_store_round buf count idx priv k := by
      unfold chars_store_round
      by_cases hidx : idx < FD6551_MAX_DIGITS
      · simp only [chars_store_ch, h idx hidx]
      · simp only [hidx, if_false]
    simp only [chars_store_loop, hround, ih]

theorem supported_digits (chip : fd6551_chip) (h : supported chip) : chip.digits = 4 := by
  simp only [supported, of_fd6551_leds_match, List.map_cons, List.map_nil, List.mem_cons,
    List.mem_singleton, List.not_mem_nil, or_false] at h
  rcases h with h | h | h <;> rw [h] <;> rfl

theorem supported_levels (chip : fd6551_chip) (h : supported chip) :
    chip.brightness_levels = 8 := by
  simp only [supported, of_fd6551_leds_match, List.map_cons, List.map_nil, List.mem_cons,
    List.mem_singleton, List.not_mem_nil, or_false] at h
  rcases h with h | h | h <;> rw [h] <;> rfl

/-- C1: on a supported chip (four digits) whose digit slots hold the devices `ds`, and for
an input whose used characters are printable (`0x20..0x7E`), `chars_store` returns `count`
and issues exactly one bus write per digit, in slot order: write `i` goes to the device of
slot `i` and carries `ascii_to_seven[buf[i] - 0x20]` when `i < count` and `0x00` (space)
otherwise. Characters at positions from `digits` on are ignored. -/
theorem chars_store_printable (chip : fd6551_chip) (hchip : supported chip)
    (priv : fd6551_priv) (hpriv : priv.chip_data = chip)
    (ds : List Nat) (hlen : ds.length = chip.digits)
    (hds : priv.i2c_client_digits = ds.map some)
    (buf : List Nat) (count : Nat) (k : Kernel)
    (hbuf : ∀ i, i < min count chip.digits → 0x20 ≤ buf.getD i 0 ∧ buf.getD i 0 ≤ 0x7E) :
    chip.digits = 4 ∧
    (∃ priv1 k1, chars_store priv buf count k = .ok ((count : Int), priv1, k1) ∧
      k1.writes = k.writes ++ (List.range chip.digits).map (fun i =>
        (ds.getD i 0, if i < count then ascii_to_seven.getD (buf.getD i 0 - 0x20) 0 else 0x00)) ∧
      k1.writes.length = k.writes.length + chip.digits) ∧
    (∀ buf2 : List Nat, (∀ i, i < chip.digits → buf2.getD i 0 = buf.getD i 0) →
      chars_store priv buf2 count k = chars_store priv buf count k) := by
  have hd : chip.digits = 4 := supported_digits chip hchip
  have hpd : priv.chip_data.digits = 4 := by rw [hpriv]; exact hd
  rw [hd] at hbuf hlen
  refine ⟨hd, ?_, ?_⟩
  · have hch : ∀ i, 0 ≤ i → i < 0 + 4 → chars_store_ch buf count i ≤ 0x7F := by
      intro i _ hi
      unfold chars_store_ch
      split
      · have := hbuf i (by omega)
        omega
      · decide
    have hdig : ∀ i, 0 ≤ i → i < 0 + 4 → ∃ a, priv.i2c_client_digits.getD i none = some a := by
      intro i _ hi
      refine ⟨ds.getD i 0, ?_⟩
      rw [hds]
      simp only [List.getD_eq_getElem?_getD, List.getElem?_map]
      rw [List.getElem?_eq_getElem (by omega)]
      rfl
    obtain ⟨priv1, k1, hrun, _, _, _, _, _, _, _, hw, _, _, _⟩ :=
      chars_store_loop_ok buf count 4 0 priv k (by decide) hch hdig
    have hwr : k1.writes = k.writes ++ (List.range chip.digits).map (fun i =>
        (ds.getD i 0,
          if i < count then ascii_to_seven.getD (buf.getD i 0 - 0x20) 0 else 0x00)) := by
      rw [hw, hd, List.range_eq_range']
      congr 1
      apply List.map_congr_left
      intro i hi
      have hi4 : i < 4 := by
        have := (List.mem_range'_1.mp hi).2
        omega
      have haddr : (priv.i2c_client_digits.getD i none).getD 0 = ds.getD i 0 := by
        rw [hds]
        simp only [List.getD_eq_getElem?_getD, List.getElem?_map]
        rw [List.getElem?_eq_getElem (by omega)]
        rfl
      rw [haddr]
      congr 1
      unfold chars_store_bits chars_store_ch
      split
      · have := hbuf i (by omega)
        rw [Nat.mod_eq_of_lt (by omega)]
        rfl
      · rfl
    refine ⟨priv1, k1, ?_, hwr, ?_⟩
    · simp only [chars_store, hpd, hrun]
    · rw [hwr]
      simp
  · intro buf2 h2
    rw [hd] at h2
    simp only [chars_store, chars_store_loop_congr buf buf2 count h2]

/-- C1, the scenario of the specification: "AB" on a ready `fd650` puts `0x77`, `0x7C`,
`0x00`, `0x00` on the four digit addresses, in slot order. -/
theorem chars_store_printable_witness :
    (chars_store fd650_ready [0x41, 0x42] 2 quiet).map (fun r => (r.1, r.2.2.writes)) =
      .ok (2, [(0x34, 0x77), (0x35, 0x7C), (0x36, 0x00), (0x37, 0x00)]) ∧
    (fd650.digits = 4 ∧
    (∃ priv1 k1, chars_store fd650_ready [0x41, 0x42] 2 quiet = .ok (((2 : Nat) : Int), priv1, k1) ∧
      k1.writes = quiet.writes ++ (List.range fd650.digits).map (fun i =>
        ([0x34, 0x35, 0x36, 0x37].getD i 0,
          if i < 2 then ascii_to_seven.getD ([0x41, 0x42].getD i 0 - 0x20) 0 else 0x00)) ∧
      k1.writes.length = quiet.writes.length + fd650.digits) ∧
    (∀ buf2 : List Nat, (∀ i, i < fd650.digits → buf2.getD i 0 = [0x41, 0x42].getD i 0) →
      chars_store fd650_ready buf2 2 quiet = chars_store fd650_ready [0x41, 0x42] 2 quiet)) :=
  ⟨by decide,
   chars_store_printable fd650 (by decide) fd650_ready rfl [0x34, 0x35, 0x36, 0x37] rfl rfl
    [0x41, 0x42] 2 quiet (by decide)⟩

/-- C2: the clamp of `chars_store` lets the index `96` through. For the character code
`0x80` the computed index equals the table length, the read `ascii_to_seven[96]` lies one
past the end of the 96-entry table, and `chars_store` runs into it. -/
theorem chars_store_index_overrun :
    ASCII_MAX_CHAR_CODE = 0x80 ∧
    chars_index 0x80 = 96 ∧
    ascii_to_seven.length = 96 ∧
    ascii_lookup (chars_index 0x80) = .error (.table_overrun 96) ∧
    chars_store fd650_ready [0x80] 1 quiet = .error (.table_overrun 96) := by
  decide

/-- C3: on a supported chip, for every brightness `b` from `0` to `brightness_levels`,
`fd6551_set_status` performs one write to the status address whose byte is `0` when
`b = 0` and `FD6551_DISPLAY_ON ||| ((brightness_levels - b) <<< 1)` otherwise. Brightness
`0` gives `0x00`, the maximum gives `0x01`, and no non-zero brightness gives a smaller
byte. -/
theorem set_status_byte (chip : fd6551_chip) (hchip : supported chip)
    (priv : fd6551_priv) (hpriv : priv.chip_data = chip)
    (s : Nat) (hs : priv.i2c_client_status = some s) (k : Kernel)
    (hb : priv.brightness ≤ chip.brightness_levels) :
    fd6551_set_status priv k =
      .ok (k.outcomes.headD 0,
        { k with
          writes := k.writes ++
            [(s, if priv.brightness = 0 then 0
                 else FD6551_DISPLAY_ON ||| ((chip.brightness_levels - priv.brightness) <<< 1))]
          outcomes := k.outcomes.tail }) ∧
    status_value chip.brightness_levels 0 % 256 = 0x00 ∧
    status_value chip.brightness_levels chip.brightness_levels % 256 = 0x01 ∧
    (∀ b, 0 < b → b ≤ chip.brightness_levels →
      status_value chip.brightness_levels chip.brightness_levels % 256 ≤
        status_value chip.brightness_levels b % 256) := by
  have hl : chip.brightness_levels = 8 := supported_levels chip hchip
  have hpl : priv.chip_data.brightness_levels = 8 := by rw [hpriv]; exact hl
  rw [hl] at hb ⊢
  have hval : ∀ b, b ≤ 8 → status_value 8 b % 256 =
      if b = 0 then 0 else FD6551_DISPLAY_ON ||| ((8 - b) <<< 1) := by decide
  have hmin : ∀ b, b ≤ 8 → 0 < b → status_value 8 8 % 256 ≤ status_value 8 b % 256 := by
    decide
  refine ⟨?_, by decide, by decide, fun b h0 h8 => hmin b h8 h0⟩
  simp only [fd6551_set_status, fd6551_write, hs, hpl, hval _ hb]

/-- C3 at brightness 3 on a ready `fd650`. -/
theorem set_status_byte_witness :
    fd6551_set_status { fd650_ready with brightness := 3 } quiet =
      .ok (quiet.outcomes.headD 0,
        { quiet with
          writes := quiet.writes ++
            [(0x24, if ({ fd650_ready with brightness := 3 } : fd6551_priv).brightness = 0 then 0
                 else FD6551_DISPLAY_ON |||
                   ((fd650.brightness_levels -
                     ({ fd650_ready with brightness := 3 } : fd6551_priv).brightness) <<< 1))]
          outcomes := quiet.outcomes.tail }) ∧
    status_value fd650.brightness_levels 0 % 256 = 0x00 ∧
    status_value fd650.brightness_levels fd650.brightness_levels % 256 = 0x01 ∧
    (∀ b, 0 < b → b ≤ fd650.brightness_levels →
      status_value fd650.brightness_levels fd650.brightness_levels % 256 ≤
        status_value fd650.brightness_levels b % 256) :=
  set_status_byte fd650 (by decide) { fd650_ready with brightness := 3 } rfl 0x24 rfl quiet
    (by decide)

/-- Below `BITS_PER_LONG` the shift of `BIT` is defined. -/
theorem BIT_of_lt (nr : Nat) (h : nr < BITS_PER_LONG) : BIT nr = .ok (bit_mask nr) := by
  simp only [BIT, h, if_true]

theorem icon_value_testBit (m bit : Nat) (lit : Bool) (hm : m < 256) (hbit : bit < 8) (j : Nat) :
    (icon_value m (bit_mask bit) lit).testBit j = if j = bit then lit else m.testBit j := by
  have h4 : 2 ^ bit < 2 ^ 32 := Nat.pow_lt_pow_right (by decide) (by omega)
  have h1 : bit_mask bit = 2 ^ bit := by
    unfold bit_mask
    rw [Nat.one_shiftLeft]
    exact Nat.mod_eq_of_lt h4
  have h2 : m % UINT_MOD = m := Nat.mod_eq_of_lt (by unfold UINT_MOD; omega)
  have h3 : u32_not (2 ^ bit) = 2 ^ 32 - (2 ^ bit + 1) := by
    unfold u32_not
    rw [show UINT_MOD = 2 ^ 32 from rfl, Nat.mod_eq_of_lt h4]
    omega
  have hmj : 8 ≤ j → m.testBit j = false := by
    intro hj
    apply Nat.testBit_lt_two_pow
    calc m < 2 ^ 8 := hm
      _ ≤ 2 ^ j := Nat.pow_le_pow_right (by decide) hj
  simp only [icon_value, h1, h2, h3, Nat.testBit_lor,
    Nat.testBit_land, Nat.testBit_two_pow_sub_succ h4, Nat.testBit_two_pow]
  by_cases hjb : j = bit
  · subst hjb
    cases lit <;> simp
  · have hbj : ¬ bit = j := fun h => hjb h.symm
    by_cases hj : j < 32
    · cases lit <;> simp [hjb, hbj, hj]
    · have := hmj (by omega)
      cases lit <;> simp [hjb, hbj, hj, this]

theorem icon_value_lt (m bit : Nat) (lit : Bool) (hm : m < 256) (hbit : bit < 8) :
    icon_value m (bit_mask bit) lit < 256 := by
  apply Nat.lt_pow_two_of_testBit _ (n := 8)
  intro j hj
  rw [icon_value_testBit m bit lit hm hbit j, if_neg (by omega)]
  apply Nat.testBit_lt_two_pow
  calc m < 2 ^ 8 := hm
    _ ≤ 2 ^ j := Nat.pow_le_pow_right (by decide) hj

theorem icon_value_formula (m bit : Nat) (lit : Bool) (hm : m < 256) (hbit : bit < 8) :
    icon_value m (bit_mask bit) lit =
      ((m &&& (0xFF ^^^ (1 <<< bit))) ||| (if lit then 1 <<< bit else 0)) := by
  apply Nat.eq_of_testBit_eq
  intro j
  rw [icon_value_testBit m bit lit hm hbit j]
  have hff : (0xFF : Nat) = 2 ^ 8 - 1 := by decide
  have hmj : 8 ≤ j → m.testBit j = false := by
    intro hj
    apply Nat.testBit_lt_two_pow
    calc m < 2 ^ 8 := hm
      _ ≤ 2 ^ j := Nat.pow_le_pow_right (by decide) hj
  simp only [Nat.testBit_lor, Nat.testBit_land, Nat.testBit_xor, hff,
    Nat.testBit_two_pow_sub_one, Nat.one_shiftLeft]
  by_cases hjb : j = bit
  · subst hjb
    have : j < 8 := hbit
    cases lit <;> simp [Nat.testBit_two_pow, this]
  · have hbj : ¬ bit = j := fun h => hjb h.symm
    by_cases hj : j < 8
    · cases lit <;> simp [Nat.testBit_two_pow, hjb, hbj, hj]
    · have := hmj (by omega)
      cases lit <;> simp [Nat.testBit_two_pow, hjb, hbj, hj, this]

/-- C4: for a stored bitmask `m < 256`, an LED on bit `k < 8` bound to the icon-bank
client, and any requested intensity `v`, `fd6551_led_brightness_set` stores
`(m AND NOT (1 << k)) OR (1 << k if v > 0 else 0)` as the new bitmask (bit `k` is set
exactly when `v > 0`, every other bit keeps its value), touches nothing else, and performs
exactly one bus write, to the icon-bank device, carrying the whole new bitmask. -/
theorem led_brightness_set_icon (priv : fd6551_priv) (led : fd6551_led) (v : Nat) (k : Kernel)
    (c : Nat) (hc : priv.i2c_client_icon_set = some c)
    (hled : led.i2c_client = priv.i2c_client_icon_set)
    (hm : priv.icon_set_bitmask < 256) (hk : led.bit < 8) :
    fd6551_led_brightness_set priv led v k =
      .ok (k.outcomes.headD 0,
        { priv with
          icon_set_bitmask := (priv.icon_set_bitmask &&& (0xFF ^^^ (1 <<< led.bit))) |||
            (if v > 0 then 1 <<< led.bit else 0) },
        { k with
          writes := k.writes ++
            [(c, (priv.icon_set_bitmask &&& (0xFF ^^^ (1 <<< led.bit))) |||
              (if v > 0 then 1 <<< led.bit else 0))]
          outcomes := k.outcomes.tail }) ∧
    (∀ j, (((priv.icon_set_bitmask &&& (0xFF ^^^ (1 <<< led.bit))) |||
        (if v > 0 then 1 <<< led.bit else 0)).testBit j =
      if j = led.bit then decide (v > 0) else priv.icon_set_bitmask.testBit j)) := by
  have hf := icon_value_formula priv.icon_set_bitmask led.bit (decide (v > 0)) hm hk
  have hlt := icon_value_lt priv.icon_set_bitmask led.bit (decide (v > 0)) hm hk
  have hite : (if decide (v > 0) = true then 1 <<< led.bit else 0) =
      (if v > 0 then 1 <<< led.bit else 0) := by
    by_cases hv : v > 0 <;> simp [hv]
  rw [hite] at hf
  constructor
  · simp only [fd6551_led_brightness_set, fd6551_write, hled, hc,
      BIT_of_lt led.bit (by unfold BITS_PER_LONG; omega)]
    rw [Nat.mod_eq_of_lt hlt, hf]
  · intro j
    rw [← hf]
    exact icon_value_testBit priv.icon_set_bitmask led.bit (decide (v > 0)) hm hk j

/-- C4, the scenario of the specification: `fd6551_init_leds` binds the icon on bit 3 to
the icon-bank client; starting from an empty bitmask, switching it on and then off puts
`0x08` and then `0x00` on the icon address. -/
theorem led_brightness_set_icon_witness :
    (fd6551_init_leds (fun a => .ok a) (probe_priv fd6551 0x24)
        [{ bit := .ok 3, register := 0 }] fd6551 quiet).map
      (fun r => (r.2.1.leds.head?, r.2.1.i2c_client_icon_set, r.2.1.icon_set_bitmask)) =
      .ok (some { bit := 3, i2c_client := some 0x33 }, some 0x33, 0) ∧
    ((fd6551_led_brightness_set fd6551_ready { bit := 3, i2c_client := some 0x33 } 255 quiet).bind
      (fun r => fd6551_led_brightness_set r.2.1 { bit := 3, i2c_client := some 0x33 } 0 r.2.2)).map
      (fun r => (r.2.1.icon_set_bitmask, r.2.2.writes)) = .ok (0x00, [(0x33, 0x08), (0x33, 0x00)]) ∧
    (fd6551_led_brightness_set fd6551_ready { bit := 3, i2c_client := some 0x33 } 255 quiet =
      .ok (quiet.outcomes.headD 0,
        { fd6551_ready with
          icon_set_bitmask := (fd6551_ready.icon_set_bitmask &&& (0xFF ^^^ (1 <<< 3))) |||
            (if 255 > 0 then 1 <<< 3 else 0) },
        { quiet with
          writes := quiet.writes ++
            [(0x33, (fd6551_ready.icon_set_bitmask &&& (0xFF ^^^ (1 <<< 3))) |||
              (if 255 > 0 then 1 <<< 3 else 0))]
          outcomes := quiet.outcomes.tail }) ∧
    (∀ j, (((fd6551_ready.icon_set_bitmask &&& (0xFF ^^^ (1 <<< 3))) |||
        (if 255 > 0 then 1 <<< 3 else 0)).testBit j =
      if j = 3 then decide (255 > 0) else fd6551_ready.icon_set_bitmask.testBit j))) :=
  ⟨by decide, by decide,
   led_brightness_set_icon fd6551_ready { bit := 3, i2c_client := some 0x33 } 255 quiet 0x33
    rfl rfl (by decide) (by decide)⟩

theorem supported_cases (chip : fd6551_chip) (h : supported chip) :
    chip = fd6551 ∨ chip = fd650 := by
  simp only [supported, of_fd6551_leds_match, List.map_cons, List.map_nil, List.mem_cons,
    List.mem_singleton, List.not_mem_nil, or_false] at h
  rcases h with h | h | h
  · exact Or.inl h
  · exact Or.inr h
  · exact Or.inr h

theorem length_four {α : Type} (l : List α) (h : l.length = 4) :
    ∃ a b c d, l = [a, b, c, d] := by
  match l, h with
  | [a, b, c, d], _ => exact ⟨a, b, c, d, rfl⟩

theorem tail_four {α : Type} (l : List α) : l.tail.tail.tail.tail = l.drop 4 := by
  rcases l with _ | ⟨a, _ | ⟨b, _ | ⟨c, _ | ⟨d, l⟩⟩⟩⟩ <;> rfl

/-- The digit loop on a chip with four digits at `0x34..0x37`, when every address is
granted: both slot orders. -/
theorem init_digits_four (ancillary : Nat → Except Int Nat) (chip : fd6551_chip)
    (hd : chip.digits = 4) (hbase : chip.addr_digits_base = 0x34)
    (h0 : ancillary 0x34 = .ok 0x34) (h1 : ancillary 0x35 = .ok 0x35)
    (h2 : ancillary 0x36 = .ok 0x36) (h3 : ancillary 0x37 = .ok 0x37)
    (priv : fd6551_priv) (hpriv : priv.chip_data = chip)
    (hlen : priv.i2c_client_digits.length = 4) (k : Kernel) :
    fd6551_init_digits ancillary priv false chip k =
      .ok (0, { priv with i2c_client_digits := [some 0x34, some 0x35, some 0x36, some 0x37] },
        { k with
          writes := k.writes ++ [(0x34, 0), (0x35, 0), (0x36, 0), (0x37, 0)]
          outcomes := k.outcomes.drop 4 }) ∧
    fd6551_init_digits ancillary priv true chip k =
      .ok (0, { priv with i2c_client_digits := [some 0x37, some 0x36, some 0x35, some 0x34] },
        { k with
          writes := k.writes ++ [(0x34, 0), (0x35, 0), (0x36, 0), (0x37, 0)]
          outcomes := k.outcomes.drop 4 }) := by
  obtain ⟨a, b, c, d, hl⟩ := length_four _ hlen
  have hpd : priv.chip_data.digits = 4 := by rw [hpriv]; exact hd
  constructor
  · simp [fd6551_init_digits, fd6551_init_digits_loop, hpd, hbase, h0, h1, h2, h3, hl,
      digit_slot, FD6551_MAX_DIGITS, fd6551_reset_leds, fd6551_write]
    exact tail_four k.outcomes
  · simp [fd6551_init_digits, fd6551_init_digits_loop, hpd, hbase, h0, h1, h2, h3, hl,
      digit_slot, FD6551_MAX_DIGITS, fd6551_reset_leds, fd6551_write, u32_sub, UINT_MOD]
    exact tail_four k.outcomes

/-- C5: on every supported chip (`fd650`, `fd6551`, `tm1650`), when each of the digit
addresses `addr_digits_base + i` is granted, `fd6551_init_digits` succeeds and leaves in
logical slot `i` the address `addr_digits_base + i` without `digits-reversed` (strictly
increasing in slot order) and `addr_digits_base + digits - 1 - i` with it; the reversed
assignment is the exact mirror of the plain one, and in both orders the rounds
`idx = 1..digits` fill every slot `0..digits-1` exactly once. -/
theorem init_digits_slots (chip : fd6551_chip) (hchip : supported chip)
    (ancillary : Nat → Except Int Nat)
    (hanc : ∀ i, i < chip.digits →
      ancillary (chip.addr_digits_base + i) = .ok (chip.addr_digits_base + i))
    (priv : fd6551_priv) (hpriv : priv.chip_data = chip)
    (hlen : priv.i2c_client_digits.length = FD6551_MAX_DIGITS) (k : Kernel) :
    ∃ pf kf pr kr,
      fd6551_init_digits ancillary priv false chip k = .ok (0, pf, kf) ∧
      fd6551_init_digits ancillary priv true chip k = .ok (0, pr, kr) ∧
      pf.i2c_client_digits =
        (List.range chip.digits).map (fun i => some (chip.addr_digits_base + i)) ∧
      pr.i2c_client_digits =
        (List.range chip.digits).map
          (fun i => some (chip.addr_digits_base + chip.digits - 1 - i)) ∧
      (∀ i, i < chip.digits →
        pr.i2c_client_digits.getD i none =
          pf.i2c_client_digits.getD (chip.digits - 1 - i) none) ∧
      (∀ i j, i < j → j < chip.digits →
        (pf.i2c_client_digits.getD i none).getD 0 < (pf.i2c_client_digits.getD j none).getD 0) ∧
      (∀ reversed : Bool,
        ((List.range' 1 chip.digits).map (digit_slot chip.digits reversed)).Perm
          (List.range chip.digits) ∧
        ((List.range' 1 chip.digits).map (digit_slot chip.digits reversed)).Nodup) := by
  have hd : chip.digits = 4 := supported_digits chip hchip
  have hbase : chip.addr_digits_base = 0x34 := by
    rcases supported_cases chip hchip with h | h <;> rw [h] <;> rfl
  rw [hd, hbase] at hanc
  obtain ⟨hf, hr⟩ := init_digits_four ancillary chip hd hbase (hanc 0 (by decide))
    (hanc 1 (by decide)) (hanc 2 (by decide)) (hanc 3 (by decide)) priv hpriv hlen k
  refine ⟨_, _, _, _, hf, hr, ?_, ?_, ?_, ?_, ?_⟩
  · rw [hd, hbase]; rfl
  · rw [hd, hbase]; rfl
  · rw [hd]
    have h : ∀ i, i < 4 →
        [some 0x37, some 0x36, some 0x35, some 0x34].getD i none =
          [some 0x34, some 0x35, some 0x36, some 0x37].getD (4 - 1 - i) none := by decide
    exact h
  · rw [hd]
    have h : ∀ j, j < 4 → ∀ i, i < j →
        ([some 0x34, some 0x35, some 0x36, some 0x37].getD i none).getD 0 <
          ([some 0x34, some 0x35, some 0x36, some 0x37].getD j none).getD 0 := by decide
    exact fun i j hij hj => h j hj i hij
  · rw [hd]; decide

/-- C5 on a freshly probed `fd6551` whose addresses are all granted: plain order gives
`0x34, 0x35, 0x36, 0x37`, reversed order `0x37, 0x36, 0x35, 0x34`. -/
theorem init_digits_slots_witness :
    ((fd6551_init_digits (fun a => .ok a) (probe_priv fd6551 0x24) false fd6551 quiet).map
        (fun r => r.2.1.i2c_client_digits) = .ok [some 0x34, some 0x35, some 0x36, some 0x37] ∧
      (fd6551_init_digits (fun a => .ok a) (probe_priv fd6551 0x24) true fd6551 quiet).map
        (fun r => r.2.1.i2c_client_digits) = .ok [some 0x37, some 0x36, some 0x35, some 0x34]) ∧
    (∃ pf kf pr kr,
      fd6551_init_digits (fun a => .ok a) (probe_priv fd6551 0x24) false fd6551 quiet =
        .ok (0, pf, kf) ∧
      fd6551_init_digits (fun a => .ok a) (probe_priv fd6551 0x24) true fd6551 quiet =
        .ok (0, pr, kr) ∧
      pf.i2c_client_digits =
        (List.range fd6551.digits).map (fun i => some (fd6551.addr_digits_base + i)) ∧
      pr.i2c_client_digits =
        (List.range fd6551.digits).map
          (fun i => some (fd6551.addr_digits_base + fd6551.digits - 1 - i)) ∧
      (∀ i, i < fd6551.digits →
        pr.i2c_client_digits.getD i none =
          pf.i2c_client_digits.getD (fd6551.digits - 1 - i) none) ∧
      (∀ i j, i < j → j < fd6551.digits →
        (pf.i2c_client_digits.getD i none).getD 0 < (pf.i2c_client_digits.getD j none).getD 0) ∧
      (∀ reversed : Bool,
        ((List.range' 1 fd6551.digits).map (digit_slot fd6551.digits reversed)).Perm
          (List.range fd6551.digits) ∧
        ((List.range' 1 fd6551.digits).map (digit_slot fd6551.digits reversed)).Nodup)) :=
  ⟨by decide,
   init_digits_slots fd6551 (by decide) (fun a => .ok a) (fun _ _ => rfl)
    (probe_priv fd6551 0x24) rfl rfl quiet⟩

/-- The run of `chars_store` on four populated digit slots and characters up to `0x7F`: it returns
`count` whatever the transfers return, and this is what it leaves on the bus and in the
kernel log. -/
theorem chars_store_ok (priv : fd6551_priv) (hd : priv.chip_data.digits = 4)
    (ds : List Nat) (hlen : ds.length = 4) (hds : priv.i2c_client_digits = ds.map some)
    (buf : List Nat) (count : Nat) (k : Kernel)
    (hbuf : ∀ i, i < 4 → chars_store_ch buf count i ≤ 0x7F) :
    ∃ priv1 k1, chars_store priv buf count k = .ok ((count : Int), priv1, k1) ∧
      priv1.chip_data = priv.chip_data ∧
      priv1.i2c_client_status = priv.i2c_client_status ∧
      priv1.i2c_client_icon_set = priv.i2c_client_icon_set ∧
      priv1.i2c_client_digits = priv.i2c_client_digits ∧
      priv1.brightness = priv.brightness ∧
      priv1.icon_set_bitmask = priv.icon_set_bitmask ∧
      k1.writes = k.writes ++ (List.range 4).map (fun i =>
        (ds.getD i 0, chars_store_bits buf count i)) ∧
      k1.outcomes = k.outcomes.drop 4 ∧
      k1.unregistered = k.unregistered ∧
      k1.errlog = k.errlog ++ (List.range 4).flatMap (fun i =>
        char_write_msg i (k.outcomes.getD i 0)) := by
  have haddr : ∀ i, i < 4 → priv.i2c_client_digits.getD i none = some (ds.getD i 0) := by
    intro i hi
    rw [hds]
    simp only [List.getD_eq_getElem?_getD, List.getElem?_map]
    rw [List.getElem?_eq_getElem (by omega)]
    rfl
  obtain ⟨priv1, k1, hrun, h1, _, h3, h4, h5, h6, h7, hw, ho, hu, he⟩ :=
    chars_store_loop_ok buf count 4 0 priv k (by decide)
      (fun i _ hi => hbuf i (by omega)) (fun i _ hi => ⟨_, haddr i (by omega)⟩)
  refine ⟨priv1, k1, ?_, h1, h3, h4, h5, h6, h7, ?_, ho, hu, ?_⟩
  · simp only [chars_store, hd, hrun]
  · rw [hw, List.range_eq_range']
    congr 1
    apply List.map_congr_left
    intro i hi
    have hi4 : i < 4 := by
      have := (List.mem_range'_1.mp hi).2
      omega
    rw [haddr i hi4]
    rfl
  · rw [he, List.range_eq_range']
    rfl

/-- C6 (as amended): the upper bound of the clamp is `0x7F`, the last entry of the table,
not `0x7E`. Wherever the used part of the input holds the code `0x7F` (and no used code is
above it), `chars_store` writes for that position the own entry of `0x7F`,
`ascii_to_seven[0x7F - 0x20] = 0x00`, which is not the byte `0x01` of the code `0x7E`. -/
theorem chars_store_del (chip : fd6551_chip) (hchip : supported chip)
    (priv : fd6551_priv) (hpriv : priv.chip_data = chip)
    (ds : List Nat) (hlen : ds.length = chip.digits)
    (hds : priv.i2c_client_digits = ds.map some)
    (buf : List Nat) (count : Nat) (k : Kernel)
    (hbuf : ∀ i, i < min count chip.digits → buf.getD i 0 ≤ 0x7F)
    (j : Nat) (hj : j < min count chip.digits) (hdel : buf.getD j 0 = 0x7F) :
    ∃ priv1 k1, chars_store priv buf count k = .ok ((count : Int), priv1, k1) ∧
      k1.writes[k.writes.length + j]? =
        some (ds.getD j 0, ascii_to_seven.getD (0x7F - 0x20) 0) ∧
      ascii_to_seven.getD (0x7F - 0x20) 0 = 0x00 ∧
      ascii_to_seven.getD (0x7E - 0x20) 0 = 0x01 := by
  have hd : chip.digits = 4 := supported_digits chip hchip
  rw [hd] at hbuf hlen hj
  have hch : ∀ i, i < 4 → chars_store_ch buf count i ≤ 0x7F := by
    intro i hi
    unfold chars_store_ch
    split
    · have := hbuf i (by omega)
      omega
    · decide
  obtain ⟨priv1, k1, hrun, _, _, _, _, _, _, hw, _, _, _⟩ :=
    chars_store_ok priv (by rw [hpriv]; exact hd) ds hlen hds buf count k hch
  refine ⟨priv1, k1, hrun, ?_, by decide, by decide⟩
  have hj4 : j < 4 := by omega
  have hjc : j < count := by omega
  have hbits : chars_store_bits buf count j = ascii_to_seven.getD (0x7F - 0x20) 0 := by
    unfold chars_store_bits chars_store_ch
    rw [if_pos hjc, hdel]
    rfl
  rw [hw, List.getElem?_append_right (by omega), Nat.add_sub_cancel_left,
    List.getElem?_map, List.getElem?_range hj4, Option.map_some', hbits]

/-- C6 (as amended) for the one-character input `0x7F` on a ready `fd650`. -/
theorem chars_store_del_witness :
    ∃ priv1 k1, chars_store fd650_ready [0x7F] 1 quiet = .ok (((1 : Nat) : Int), priv1, k1) ∧
      k1.writes[quiet.writes.length + 0]? =
        some ([0x34, 0x35, 0x36, 0x37].getD 0 0, ascii_to_seven.getD (0x7F - 0x20) 0) ∧
      ascii_to_seven.getD (0x7F - 0x20) 0 = 0x00 ∧
      ascii_to_seven.getD (0x7E - 0x20) 0 = 0x01 :=
  chars_store_del fd650 (by decide) fd650_ready rfl [0x34, 0x35, 0x36, 0x37] rfl rfl
    [0x7F] 1 quiet (by decide) 0 (by decide) rfl

/-- C6 as stated fails at the code `0x7F`: `chars_store` writes `0x00` for it, while the
code `0x7E` and the entry `ascii_to_seven[0x7E - 0x20]` give `0x01`. -/
theorem del_is_not_tilde :
    (chars_store fd650_ready [0x7F] 1 quiet).map (fun r => r.2.2.writes.head?) =
      .ok (some (0x34, 0x00)) ∧
    (chars_store fd650_ready [0x7E] 1 quiet).map (fun r => r.2.2.writes.head?) =
      .ok (some (0x34, 0x01)) ∧
    ascii_to_seven.getD (0x7E - 0x20) 0 = 0x01 ∧
    ¬ ((chars_store fd650_ready [0x7F] 1 quiet).map (fun r => r.2.2.writes) =
      (chars_store fd650_ready [0x7E] 1 quiet).map (fun r => r.2.2.writes)) := by
  decide

/-- C7 (as amended): the table has exactly 96 entries, each of them an 8-bit pattern, and
bit 7 (the decimal point) is set by exactly four of them, the entries of the characters
`!`, `%`, `.` and `?` (indices 1, 5, 14 and 31); every other entry is below `0x80`. -/
theorem ascii_to_seven_bit7 :
    ascii_to_seven.length = 96 ∧
    (∀ i, i < 96 → ascii_to_seven.getD i 0 < 0x100) ∧
    (∀ i, i < 96 → (0x80 ≤ ascii_to_seven.getD i 0 ↔ i ∈ [1, 5, 14, 31])) ∧
    (∀ i, i < 96 → i ∉ [1, 5, 14, 31] → (ascii_to_seven.getD i 0).testBit 7 = false) := by
  decide

/-- C7 as stated fails at the entry of `!` (index 1): it is `0x86`, bit 7 is set, and
`chars_store` puts this byte on the bus for the input `!`. -/
theorem ascii_to_seven_bang_bit7 :
    ascii_to_seven.getD (0x21 - 0x20) 0 = 0x86 ∧
    ¬ (ascii_to_seven.getD (0x21 - 0x20) 0 < 0x80) ∧
    (ascii_to_seven.getD (0x21 - 0x20) 0).testBit 7 = true ∧
    (chars_store fd650_ready [0x21] 1 quiet).map (fun r => r.2.2.writes.head?) =
      .ok (some (0x34, 0x86)) := by
  decide

/-- C8: once the level is parsed, `brightness_store` stores `min level brightness_levels`
as brightness, writes to the status address the status byte of that stored value, returns
`count`, and changes nothing else: text, icon bitmask, clients and chip data are as before,
and `max_brightness_show` still prints `brightness_levels` (`8` on every supported chip). -/
theorem brightness_store_clamps (priv : fd6551_priv) (hchip : supported priv.chip_data)
    (s : Nat) (hs : priv.i2c_client_status = some s)
    (level : Nat) (hlevel : level < UINT_MOD) (count : Nat) (k : Kernel) :
    brightness_store priv (.ok level) count k =
      .ok ((count : Int),
        { priv with brightness := min level priv.chip_data.brightness_levels },
        { k with
          writes := k.writes ++
            [(s, status_value priv.chip_data.brightness_levels
                  (min level priv.chip_data.brightness_levels) % 256)]
          outcomes := k.outcomes.tail }) ∧
    max_brightness_show { priv with brightness := min level priv.chip_data.brightness_levels } =
      max_brightness_show priv ∧
    max_brightness_show { priv with brightness := min level priv.chip_data.brightness_levels } =
      (['8'], 1) := by
  have hl : priv.chip_data.brightness_levels = 8 := supported_levels _ hchip
  refine ⟨?_, rfl, ?_⟩
  · simp only [brightness_store, fd6551_set_status, fd6551_write, hs, Nat.mod_eq_of_lt hlevel,
      Nat.max_eq_left (Nat.zero_le level)]
  · simp only [max_brightness_show, hl]
    decide

/-- C8, the scenario of the specification: brightness 8, then brightness 0, then
`max_brightness` still reads `8`. -/
theorem brightness_store_clamps_witness :
    ((brightness_store fd650_ready (.ok 8) 2 quiet).bind
        (fun r => brightness_store r.2.1 (.ok 0) 2 r.2.2)).map
      (fun r => (r.2.1.brightness, r.2.2.writes, max_brightness_show r.2.1)) =
      .ok (0, [(0x24, 0x01), (0x24, 0x00)], (['8'], 1)) ∧
    (brightness_store fd650_ready (.ok 100) 4 quiet =
      .ok (((4 : Nat) : Int),
        { fd650_ready with brightness := min 100 fd650_ready.chip_data.brightness_levels },
        { quiet with
          writes := quiet.writes ++
            [(0x24, status_value fd650_ready.chip_data.brightness_levels
                  (min 100 fd650_ready.chip_data.brightness_levels) % 256)]
          outcomes := quiet.outcomes.tail }) ∧
    max_brightness_show
        { fd650_ready with brightness := min 100 fd650_ready.chip_data.brightness_levels } =
      max_brightness_show fd650_ready ∧
    max_brightness_show
        { fd650_ready with brightness := min 100 fd650_ready.chip_data.brightness_levels } =
      (['8'], 1)) :=
  ⟨by decide,
   brightness_store_clamps fd650_ready (by decide) 0x24 rfl 100 (by decide) 4 quiet⟩

/-- C9 as stated fails: with a transfer that returns `-EIO`, `chars_store` and
`brightness_store` both return `count`, the value of a successful call. `chars_store`
leaves a `dev_err` message, `brightness_store` leaves none. -/
theorem store_returns_count_on_failure :
    (chars_store fd650_ready [0x41] 1 flaky).map (fun r => (r.1, r.2.2.errlog)) =
      .ok (1, [.char_write 0 (-5)]) ∧
    (brightness_store fd650_ready (.ok 3) 1 flaky).map (fun r => (r.1, r.2.2.errlog)) =
      .ok (1, []) ∧
    (chars_store fd650_ready [0x41] 1 flaky).map (fun r => r.1) =
      (chars_store fd650_ready [0x41] 1 quiet).map (fun r => r.1) ∧
    (brightness_store fd650_ready (.ok 3) 1 flaky).map (fun r => r.1) =
      (brightness_store fd650_ready (.ok 3) 1 quiet).map (fun r => r.1) := by
  decide

/-- C9 (as amended): a failed digit write of `chars_store` does not become an error
result. On a supported chip with populated slots and used characters up to `0x7F`,
whatever the transfers return, `chars_store` attempts all the digit writes, hands to
`dev_err` one message per failed write, carrying the digit index and the error code, in
digit order, and returns `count`. -/
theorem chars_store_logs_failures (chip : fd6551_chip) (hchip : supported chip)
    (priv : fd6551_priv) (hpriv : priv.chip_data = chip)
    (ds : List Nat) (hlen : ds.length = chip.digits)
    (hds : priv.i2c_client_digits = ds.map some)
    (buf : List Nat) (count : Nat) (k : Kernel)
    (hbuf : ∀ i, i < min count chip.digits → buf.getD i 0 ≤ 0x7F) :
    ∃ priv1 k1, chars_store priv buf count k = .ok ((count : Int), priv1, k1) ∧
      k1.writes.length = k.writes.length + chip.digits ∧
      k1.errlog = k.errlog ++ (List.range chip.digits).flatMap (fun i =>
        if k.outcomes.getD i 0 ≠ 0 then [ErrMsg.char_write i (k.outcomes.getD i 0)] else []) ∧
      (∀ i, i < chip.digits → k.outcomes.getD i 0 ≠ 0 →
        ErrMsg.char_write i (k.outcomes.getD i 0) ∈ k1.errlog) := by
  have hd : chip.digits = 4 := supported_digits chip hchip
  rw [hd] at hbuf hlen
  have hch : ∀ i, i < 4 → chars_store_ch buf count i ≤ 0x7F := by
    intro i hi
    unfold chars_store_ch
    split
    · have := hbuf i (by omega)
      omega
    · decide
  obtain ⟨priv1, k1, hrun, _, _, _, _, _, _, hw, _, _, he⟩ :=
    chars_store_ok priv (by rw [hpriv]; exact hd) ds hlen hds buf count k hch
  refine ⟨priv1, k1, hrun, ?_, ?_, ?_⟩
  · rw [hw, hd]
    simp
  · rw [he, hd]
    rfl
  · intro i hi hne
    rw [he, hd] at *
    apply List.mem_append_right
    rw [List.mem_flatMap]
    refine ⟨i, List.mem_range.mpr hi, ?_⟩
    simp only [char_write_msg, hne, ne_eq, not_false_eq_true, if_true, List.mem_singleton]

/-- C9 (as amended) on a ready `fd650` whose first transfer fails. -/
theorem chars_store_logs_failures_witness :
    ∃ priv1 k1, chars_store fd650_ready [0x41] 1 flaky = .ok (((1 : Nat) : Int), priv1, k1) ∧
      k1.writes.length = flaky.writes.length + fd650.digits ∧
      k1.errlog = flaky.errlog ++ (List.range fd650.digits).flatMap (fun i =>
        if flaky.outcomes.getD i 0 ≠ 0 then [ErrMsg.char_write i (flaky.outcomes.getD i 0)]
        else []) ∧
      (∀ i, i < fd650.digits → flaky.outcomes.getD i 0 ≠ 0 →
        ErrMsg.char_write i (flaky.outcomes.getD i 0) ∈ k1.errlog) :=
  chars_store_logs_failures fd650 (by decide) fd650_ready rfl [0x34, 0x35, 0x36, 0x37] rfl rfl
    [0x41] 1 flaky (by decide)

/-- The digit loop of `fd6551_remove`: it never faults, resets and unregisters exactly the
populated slots among `idx .. idx + n - 1`, in slot order. -/
theorem remove_digits_spec (priv : fd6551_priv) :
    ∀ (n idx : Nat) (k : Kernel),
      ∃ k1, fd6551_remove_digits priv n idx k = .ok k1 ∧
        k1.writes = k.writes ++
          ((List.range' idx n).filterMap (fun i => priv.i2c_client_digits.getD i none)).map
            (fun a => (a, 0)) ∧
        k1.unregistered = k.unregistered ++
          (List.range' idx n).filterMap (fun i => priv.i2c_client_digits.getD i none) ∧
        k1.errlog = k.errlog := by
  intro n
  induction n with
  | zero =>
    intro idx k
    exact ⟨k, rfl, by simp, by simp, rfl⟩
  | succ n ih =>
    intro idx k
    cases hg : priv.i2c_client_digits.getD idx none with
    | none =>
      obtain ⟨k1, hrun, hw, hu, he⟩ := ih (idx + 1) k
      refine ⟨k1, ?_, ?_, ?_, he⟩
      · simp only [fd6551_remove_digits, hg]
        exact hrun
      · rw [hw]
        simp only [List.range'_succ, List.filterMap_cons, hg]
      · rw [hu]
        simp only [List.range'_succ, List.filterMap_cons, hg]
    | some a =>
      obtain ⟨k1, hrun, hw, hu, he⟩ := ih (idx + 1)
        { writes := k.writes ++ [(a, 0)]
          outcomes := k.outcomes.tail
          errlog := k.errlog
          unregistered := k.unregistered ++ [a] }
      refine ⟨k1, ?_, ?_, ?_, he⟩
      · simp only [fd6551_remove_digits, hg, fd6551_reset_leds, fd6551_write, Nat.zero_mod]
        exact hrun
      · rw [hw]
        simp only [List.range'_succ, List.filterMap_cons, hg, List.map_cons, List.append_assoc,
          List.singleton_append]
      · rw [hu]
        simp only [List.range'_succ, List.filterMap_cons, hg, List.append_assoc,
          List.singleton_append]

theorem filterMap_four (l : List (Option Nat)) (h : l.length = 4) :
    (List.range' 0 4).filterMap (fun i => l.getD i none) = l.reduceOption := by
  obtain ⟨a, b, c, d, rfl⟩ := length_four l h
  cases a <;> cases b <;> cases c <;> cases d <;> rfl

/-- C10: for every controller state (status address claimed, digit slots possibly only
partly filled, icon bank possibly unclaimed), `fd6551_remove` sets brightness to 0 and
writes, in this order, to the status address, to the icon-bank address if and only if it is
claimed, and to each claimed digit address and no other; every byte written is 0. -/
theorem remove_resets_claimed (priv : fd6551_priv) (k : Kernel)
    (s : Nat) (hs : priv.i2c_client_status = some s)
    (hlen : priv.i2c_client_digits.length = FD6551_MAX_DIGITS) :
    ∃ k1, fd6551_remove priv k = .ok ({ priv with brightness := 0 }, k1) ∧
      k1.writes = k.writes ++
        (s :: (priv.i2c_client_icon_set.toList ++ priv.i2c_client_digits.reduceOption)).map
          (fun a => (a, 0)) ∧
      (∀ a, (a, 0) ∈ k1.writes.drop k.writes.length ↔
        (a = s ∨ priv.i2c_client_icon_set = some a ∨ some a ∈ priv.i2c_client_digits)) ∧
      (∀ w, w ∈ k1.writes.drop k.writes.length → w.2 = 0) := by
  have hwrites : ∃ k1, fd6551_remove priv k = .ok ({ priv with brightness := 0 }, k1) ∧
      k1.writes = k.writes ++
        (s :: (priv.i2c_client_icon_set.toList ++ priv.i2c_client_digits.reduceOption)).map
          (fun a => (a, 0)) := by
    obtain ⟨chip, leds, st, ic, dg, br, im, tx⟩ := priv
    simp only at hs hlen
    subst hs
    have hlist : ∀ (p : fd6551_priv) (k0 : Kernel), p.i2c_client_digits = dg → ∃ k1,
        fd6551_remove_digits p FD6551_MAX_DIGITS 0 k0 = .ok k1 ∧
        k1.writes = k0.writes ++ dg.reduceOption.map (fun a => (a, 0)) := by
      intro p k0 hp
      obtain ⟨k1, hrun, hw, _, _⟩ := remove_digits_spec p FD6551_MAX_DIGITS 0 k0
      refine ⟨k1, hrun, ?_⟩
      rw [hw, hp, show FD6551_MAX_DIGITS = 4 from rfl, filterMap_four _ hlen]
    cases ic with
    | none =>
      obtain ⟨k1, hrun, hw⟩ := hlist
        { chip_data := chip, leds := leds, i2c_client_status := some s,
          i2c_client_icon_set := none, i2c_client_digits := dg, brightness := 0,
          icon_set_bitmask := im, text := tx }
        { writes := k.writes ++ [(s, 0)]
          outcomes := k.outcomes.tail
          errlog := k.errlog
          unregistered := k.unregistered } rfl
      refine ⟨k1, ?_, ?_⟩
      · simp only [fd6551_remove, fd6551_set_off, fd6551_set_status, fd6551_write,
          status_value, if_true, FD6551_DISPLAY_OFF, Nat.zero_mod, hrun]
      · rw [hw]
        simp
    | some c =>
      obtain ⟨k1, hrun, hw⟩ := hlist
        { chip_data := chip, leds := leds, i2c_client_status := some s,
          i2c_client_icon_set := some c, i2c_client_digits := dg, brightness := 0,
          icon_set_bitmask := im, text := tx }
        { writes := k.writes ++ [(s, 0)] ++ [(c, 0)]
          outcomes := k.outcomes.tail.tail
          errlog := k.errlog
          unregistered := k.unregistered ++ [c] } rfl
      refine ⟨k1, ?_, ?_⟩
      · simp only [fd6551_remove, fd6551_set_off, fd6551_set_status, fd6551_write,
          status_value, if_true, FD6551_DISPLAY_OFF, Nat.zero_mod, fd6551_reset_leds, hrun]
      · rw [hw]
        simp
  obtain ⟨k1, hrun, hw⟩ := hwrites
  refine ⟨k1, hrun, hw, ?_, ?_⟩
  · intro a
    rw [hw, List.drop_left]
    simp [List.reduceOption_mem_iff, Option.mem_def]
  · intro w hmem
    rw [hw, List.drop_left] at hmem
    obtain ⟨a, _, rfl⟩ := List.mem_map.mp hmem
    rfl

/-- C10, the scenario of the specification: a `fd650` whose digit initialisation stopped
after two addresses is torn down with writes to the status address and to those two digit
addresses only. -/
theorem remove_resets_claimed_witness :
    ((fd6551_init_digits two_granted (probe_priv fd650 0x24) false fd650 quiet).map
        (fun r => (r.1, r.2.1)) = .ok (-16, half_claimed) ∧
      (fd6551_remove half_claimed quiet).map (fun r => (r.1.brightness, r.2.writes)) =
        .ok (0, [(0x24, 0), (0x34, 0), (0x35, 0)])) ∧
    (∃ k1, fd6551_remove half_claimed quiet = .ok ({ half_claimed with brightness := 0 }, k1) ∧
      k1.writes = quiet.writes ++
        (0x24 :: (half_claimed.i2c_client_icon_set.toList ++
          half_claimed.i2c_client_digits.reduceOption)).map (fun a => (a, 0)) ∧
      (∀ a, (a, 0) ∈ k1.writes.drop quiet.writes.length ↔
        (a = 0x24 ∨ half_claimed.i2c_client_icon_set = some a ∨
          some a ∈ half_claimed.i2c_client_digits)) ∧
      (∀ w, w ∈ k1.writes.drop quiet.writes.length → w.2 = 0)) :=
  ⟨by decide, remove_resets_claimed half_claimed quiet 0x24 rfl rfl⟩

/-- C14: on a supported chip, for every valid brightness `b` (from `0` to
`brightness_levels`), the inverse formula applied to the status byte that
`fd6551_set_status` writes for `b` gives `b` back; so two valid brightness values with the
same status byte are equal. -/
theorem status_round_trip (chip : fd6551_chip) (hchip : supported chip)
    (b : Nat) (hb : b ≤ chip.brightness_levels) :
    brightness_of_status chip.brightness_levels
        (status_value chip.brightness_levels b % 256) = b ∧
    (∀ b2, b2 ≤ chip.brightness_levels →
      status_value chip.brightness_levels b2 % 256 =
        status_value chip.brightness_levels b % 256 → b2 = b) := by
  have hl : chip.brightness_levels = 8 := supported_levels chip hchip
  rw [hl] at hb ⊢
  have hrt : ∀ c, c ≤ 8 → brightness_of_status 8 (status_value 8 c % 256) = c := by decide
  refine ⟨hrt b hb, ?_⟩
  intro b2 hb2 heq
  rw [← hrt b2 hb2, heq, hrt b hb]

/-- C14 at brightness 5 on the `fd650`: the byte is `0x07` and the inverse gives 5. -/
theorem status_round_trip_witness :
    (status_value fd650.brightness_levels 5 % 256 = 0x07 ∧
      brightness_of_status fd650.brightness_levels 0x07 = 5) ∧
    (brightness_of_status fd650.brightness_levels
        (status_value fd650.brightness_levels 5 % 256) = 5 ∧
    (∀ b2, b2 ≤ fd650.brightness_levels →
      status_value fd650.brightness_levels b2 % 256 =
        status_value fd650.brightness_levels 5 % 256 → b2 = 5)) :=
  ⟨by decide, status_round_trip fd650 (by decide) 5 (by decide)⟩

/-- C15 as stated fails between brightness 0 and brightness 1: on the `fd650` the status
byte of 0 is `0x00` and the status byte of 1 is `0x0F`, which is larger. -/
theorem status_not_monotone_at_zero :
    (0 : Nat) ≤ 1 ∧ 1 ≤ fd650.brightness_levels ∧
    status_value fd650.brightness_levels 0 % 256 = 0x00 ∧
    status_value fd650.brightness_levels 1 % 256 = 0x0F ∧
    ¬ (status_value fd650.brightness_levels 1 % 256 ≤
        status_value fd650.brightness_levels 0 % 256) := by
  decide

/-- C15 (as amended): on a supported chip the status byte is monotonic non-increasing over
the non-zero brightness values: for `1 ≤ b1 ≤ b2 ≤ brightness_levels` the byte of `b2` is
at most the byte of `b1`. Brightness 0 is apart: its byte is `0x00`, the display-off
value, below the byte of every non-zero brightness. -/
theorem status_monotone_on (chip : fd6551_chip) (hchip : supported chip)
    (b1 b2 : Nat) (h1 : 1 ≤ b1) (h12 : b1 ≤ b2) (h2 : b2 ≤ chip.brightness_levels) :
    status_value chip.brightness_levels b2 % 256 ≤
      status_value chip.brightness_levels b1 % 256 ∧
    status_value chip.brightness_levels 0 % 256 = 0x00 ∧
    status_value chip.brightness_levels 0 % 256 <
      status_value chip.brightness_levels b2 % 256 := by
  have hl : chip.brightness_levels = 8 := supported_levels chip hchip
  rw [hl] at h2 ⊢
  have hmono : ∀ c2, c2 ≤ 8 → ∀ c1, c1 ≤ c2 → 1 ≤ c1 →
      status_value 8 c2 % 256 ≤ status_value 8 c1 % 256 ∧
      status_value 8 0 % 256 = 0x00 ∧
      status_value 8 0 % 256 < status_value 8 c2 % 256 := by decide
  exact hmono b2 h2 b1 h12 h1

/-- C15 (as amended) between brightness 2 and brightness 7 on the `fd650`. -/
theorem status_monotone_on_witness :
    status_value fd650.brightness_levels 7 % 256 ≤
      status_value fd650.brightness_levels 2 % 256 ∧
    status_value fd650.brightness_levels 0 % 256 = 0x00 ∧
    status_value fd650.brightness_levels 0 % 256 <
      status_value fd650.brightness_levels 7 % 256 :=
  status_monotone_on fd650 (by decide) 2 7 (by decide) (by decide) (by decide)

/-- The write of one round of `chars_store` for a position whose character is at most the
space: the byte is `0x00`. -/
theorem chars_store_round_blank (buf : List Nat) (count idx : Nat) (priv : fd6551_priv)
    (k : Kernel) (a : Nat) (hidx : idx < FD6551_MAX_DIGITS)
    (hch : chars_store_ch buf count idx ≤ 0x20)
    (ha : priv.i2c_client_digits.getD idx none = some a) :
    ∃ priv1 k1, chars_store_round buf count idx priv k = .ok (priv1, k1) ∧
      k1.writes = k.writes ++ [(a, 0x00)] := by
  have hbits : chars_store_bits buf count idx = 0 := by
    unfold chars_store_bits
    rw [show chars_store_ch buf count idx - ASCII_TABLE_OFFSET = 0 from by
      unfold ASCII_TABLE_OFFSET; omega]
    rfl
  refine ⟨_, _, chars_store_round_ok buf count idx priv k a hidx (by omega) ha, ?_⟩
  simp only [hbits]

/-- C16: the lower clamp. Every character code `c < 0x20` gets the table index of the
space, whose entry is the all-segments-off byte `0x00`; the round of `chars_store` for a
position that holds such a code writes `0x00` to the device of the position, exactly the
write it does when the position holds a space. -/
theorem chars_store_lower_clamp (c : Nat) (hc : c < 0x20)
    (buf : List Nat) (count idx : Nat) (priv : fd6551_priv) (k : Kernel) (a : Nat)
    (hidx : idx < FD6551_MAX_DIGITS) (hcount : idx < count)
    (hbuf : buf.getD idx 0 = c)
    (ha : priv.i2c_client_digits.getD idx none = some a) :
    chars_index c = chars_index 0x20 ∧
    ascii_lookup (chars_index c) = .ok 0x00 ∧
    ascii_lookup (chars_index 0x20) = .ok 0x00 ∧
    (∃ priv1 k1, chars_store_round buf count idx priv k = .ok (priv1, k1) ∧
      k1.writes = k.writes ++ [(a, 0x00)]) ∧
    (∀ buf2 : List Nat, buf2.getD idx 0 = 0x20 →
      ∃ priv2 k2, chars_store_round buf2 count idx priv k = .ok (priv2, k2) ∧
        k2.writes = k.writes ++ [(a, 0x00)]) := by
  have hi : chars_index c = 0 := by
    rw [chars_index_of_le c (by omega)]
    omega
  have hch : chars_store_ch buf count idx = c := by
    unfold chars_store_ch
    rw [if_pos hcount, hbuf]
    exact Nat.mod_eq_of_lt (by omega)
  refine ⟨by rw [hi]; decide, by rw [hi]; decide, by decide, ?_, ?_⟩
  · exact chars_store_round_blank buf count idx priv k a hidx (by omega) ha
  · intro buf2 h2
    have hch2 : chars_store_ch buf2 count idx = 0x20 := by
      unfold chars_store_ch
      rw [if_pos hcount, h2]
    exact chars_store_round_blank buf2 count idx priv k a hidx (by omega) ha

/-- C16 for the code `0x0A` (a line feed) on a ready `fd650`: the one-character text
`0x0A` puts `0x00` on all four digits, as the one-character text `0x20` does. -/
theorem chars_store_lower_clamp_witness :
    ((chars_store fd650_ready [0x0A] 1 quiet).map (fun r => r.2.2.writes) =
        .ok [(0x34, 0x00), (0x35, 0x00), (0x36, 0x00), (0x37, 0x00)] ∧
      (chars_store fd650_ready [0x0A] 1 quiet).map (fun r => r.2.2.writes) =
        (chars_store fd650_ready [0x20] 1 quiet).map (fun r => r.2.2.writes)) ∧
    (chars_index 0x0A = chars_index 0x20 ∧
    ascii_lookup (chars_index 0x0A) = .ok 0x00 ∧
    ascii_lookup (chars_index 0x20) = .ok 0x00 ∧
    (∃ priv1 k1, chars_store_round [0x0A] 1 0 fd650_ready quiet = .ok (priv1, k1) ∧
      k1.writes = quiet.writes ++ [(0x34, 0x00)]) ∧
    (∀ buf2 : List Nat, buf2.getD 0 0 = 0x20 →
      ∃ priv2 k2, chars_store_round buf2 1 0 fd650_ready quiet = .ok (priv2, k2) ∧
        k2.writes = quiet.writes ++ [(0x34, 0x00)])) :=
  ⟨by decide,
   chars_store_lower_clamp 0x0A (by decide) [0x0A] 1 0 fd650_ready quiet 0x34 (by decide)
    (by decide) rfl rfl⟩

/-- Bit `j` of the value `fd6551_led_brightness_set` computes, for a 32-bit bitmask and a
bit number below 32. -/
theorem icon_value_testBit_u32 (m bit : Nat) (lit : Bool) (hm : m < UINT_MOD) (hbit : bit < 32)
    (j : Nat) :
    (icon_value m (bit_mask bit) lit).testBit j = if j = bit then lit else m.testBit j := by
  have h4 : 2 ^ bit < 2 ^ 32 := Nat.pow_lt_pow_right (by decide) hbit
  have h1 : bit_mask bit = 2 ^ bit := by
    unfold bit_mask
    rw [Nat.one_shiftLeft]
    exact Nat.mod_eq_of_lt h4
  have h2 : m % UINT_MOD = m := Nat.mod_eq_of_lt hm
  have h3 : u32_not (2 ^ bit) = 2 ^ 32 - (2 ^ bit + 1) := by
    unfold u32_not
    rw [show UINT_MOD = 2 ^ 32 from rfl, Nat.mod_eq_of_lt h4]
    omega
  have hmj : 32 ≤ j → m.testBit j = false := by
    intro hj
    apply Nat.testBit_lt_two_pow
    calc m < 2 ^ 32 := hm
      _ ≤ 2 ^ j := Nat.pow_le_pow_right (by decide) hj
  simp only [icon_value, h1, h2, h3, Nat.testBit_lor,
    Nat.testBit_land, Nat.testBit_two_pow_sub_succ h4, Nat.testBit_two_pow]
  by_cases hjb : j = bit
  · subst hjb
    cases lit <;> simp
  · have hbj : ¬ bit = j := fun h => hjb h.symm
    by_cases hj : j < 32
    · cases lit <;> simp [hjb, hbj, hj]
    · have := hmj (by omega)
      cases lit <;> simp [hjb, hbj, hj, this]

/-- Setting a bit to the opposite of its value and then back gives the bitmask back. -/
theorem icon_value_toggle (m bit : Nat) (hm : m < UINT_MOD) (hbit : bit < 32) :
    icon_value m (bit_mask bit) (!m.testBit bit) < UINT_MOD ∧
    icon_value (icon_value m (bit_mask bit) (!m.testBit bit)) (bit_mask bit) (m.testBit bit) =
      m := by
  have hlt : icon_value m (bit_mask bit) (!m.testBit bit) < UINT_MOD := by
    apply Nat.lt_pow_two_of_testBit _ (n := 32)
    intro j hj
    rw [icon_value_testBit_u32 m bit _ hm hbit j, if_neg (by omega)]
    apply Nat.testBit_lt_two_pow
    calc m < 2 ^ 32 := hm
      _ ≤ 2 ^ j := Nat.pow_le_pow_right (by decide) hj
  refine ⟨hlt, ?_⟩
  apply Nat.eq_of_testBit_eq
  intro j
  rw [icon_value_testBit_u32 _ bit _ hlt hbit j, icon_value_testBit_u32 m bit _ hm hbit j]
  by_cases hjb : j = bit
  · rw [if_pos hjb, hjb]
  · rw [if_neg hjb, if_neg hjb]

/-- C17: for every icon bitmask `m` and every LED on a bit `k < 8`, setting the icon to
the opposite of its current state in `m` and then to its original state leaves exactly
`m` as the stored bitmask. Here `v1` and `v2` are the two requested intensities: `v1` is
non-zero exactly when bit `k` of `m` is clear, `v2` exactly when it is set. -/
theorem led_brightness_set_twice (priv : fd6551_priv) (led : fd6551_led) (c : Nat)
    (hc : led.i2c_client = some c) (hm : priv.icon_set_bitmask < UINT_MOD)
    (hk : led.bit < 8) (v1 v2 : Nat)
    (h1 : decide (v1 > 0) = !priv.icon_set_bitmask.testBit led.bit)
    (h2 : decide (v2 > 0) = priv.icon_set_bitmask.testBit led.bit) (k : Kernel) :
    ∃ r1 priv1 k1 r2 priv2 k2,
      fd6551_led_brightness_set priv led v1 k = .ok (r1, priv1, k1) ∧
      fd6551_led_brightness_set priv1 led v2 k1 = .ok (r2, priv2, k2) ∧
      priv1.icon_set_bitmask.testBit led.bit = !priv.icon_set_bitmask.testBit led.bit ∧
      priv2.icon_set_bitmask = priv.icon_set_bitmask ∧
      priv2 = priv := by
  obtain ⟨hlt, htoggle⟩ := icon_value_toggle priv.icon_set_bitmask led.bit hm (by omega)
  have hset : ∀ (p : fd6551_priv) (v : Nat) (k0 : Kernel),
      fd6551_led_brightness_set p led v k0 =
        .ok (k0.outcomes.headD 0,
          { p with
            icon_set_bitmask :=
              icon_value p.icon_set_bitmask (bit_mask led.bit) (decide (v > 0)) },
          { k0 with
            writes := k0.writes ++
              [(c, icon_value p.icon_set_bitmask (bit_mask led.bit) (decide (v > 0)) % 256)]
            outcomes := k0.outcomes.tail }) := by
    intro p v k0
    simp only [fd6551_led_brightness_set, fd6551_write, hc,
      BIT_of_lt led.bit (by unfold BITS_PER_LONG; omega)]
  refine ⟨_, _, _, _, _, _, hset priv v1 k, hset _ v2 _, ?_, ?_, ?_⟩
  · show (icon_value priv.icon_set_bitmask (bit_mask led.bit) _).testBit led.bit = _
    rw [h1, icon_value_testBit_u32 _ _ _ hm (by omega), if_pos rfl]
  · show icon_value (icon_value priv.icon_set_bitmask (bit_mask led.bit) _)
      (bit_mask led.bit) _ = _
    rw [h1, h2]
    exact htoggle
  · show ({ priv with
        icon_set_bitmask :=
          icon_value (icon_value priv.icon_set_bitmask (bit_mask led.bit) _)
            (bit_mask led.bit) _ } :
        fd6551_priv) = priv
    rw [h1, h2, htoggle]

/-- C17 on a `fd6551` whose bitmask is `0x05`, with the icon on bit 3: on, then off. -/
theorem led_brightness_set_twice_witness :
    ((fd6551_led_brightness_set { fd6551_ready with icon_set_bitmask := 0x05 }
        { bit := 3, i2c_client := some 0x33 } 1 quiet).bind
      (fun r => fd6551_led_brightness_set r.2.1 { bit := 3, i2c_client := some 0x33 } 0
        r.2.2)).map (fun r => (r.2.1.icon_set_bitmask, r.2.2.writes)) =
      .ok (0x05, [(0x33, 0x0D), (0x33, 0x05)]) ∧
    (∃ r1 priv1 k1 r2 priv2 k2,
      fd6551_led_brightness_set { fd6551_ready with icon_set_bitmask := 0x05 }
        { bit := 3, i2c_client := some 0x33 } 1 quiet = .ok (r1, priv1, k1) ∧
      fd6551_led_brightness_set priv1 { bit := 3, i2c_client := some 0x33 } 0 k1 =
        .ok (r2, priv2, k2) ∧
      priv1.icon_set_bitmask.testBit 3 =
        !({ fd6551_ready with icon_set_bitmask := 0x05 } : fd6551_priv).icon_set_bitmask.testBit
          3 ∧
      priv2.icon_set_bitmask =
        ({ fd6551_ready with icon_set_bitmask := 0x05 } : fd6551_priv).icon_set_bitmask ∧
      priv2 = { fd6551_ready with icon_set_bitmask := 0x05 }) :=
  ⟨by decide,
   led_brightness_set_twice { fd6551_ready with icon_set_bitmask := 0x05 }
    { bit := 3, i2c_client := some 0x33 } 0x33 rfl (by decide) (by decide) 1 0
    (by decide) (by decide) quiet⟩

/-- C18 as stated fails for a non-zero brightness: from brightness 3 on a ready `fd650`,
`fd6551_set_on` leaves brightness 8, not 3, and writes `0x01`, not the byte `0x0B` of
brightness 3. -/
theorem set_on_overwrites :
    (fd6551_set_on { fd650_ready with brightness := 3 } quiet).map
        (fun r => (r.2.1.brightness, r.2.2.writes)) = .ok (8, [(0x24, 0x01)]) ∧
    ¬ ((fd6551_set_on { fd650_ready with brightness := 3 } quiet).map
        (fun r => r.2.1.brightness) = .ok 3) ∧
    status_value fd650.brightness_levels 3 % 256 = 0x0B := by
  decide

/-- C18 (as amended): on a supported chip `fd6551_set_on` sets brightness to
`brightness_levels` whatever the brightness was, zero or not, changes nothing else in the
state, and performs one write to the status address: the status byte of the resulting
brightness, which is `0x01`. -/
theorem set_on_full (chip : fd6551_chip) (hchip : supported chip)
    (priv : fd6551_priv) (hpriv : priv.chip_data = chip)
    (s : Nat) (hs : priv.i2c_client_status = some s) (k : Kernel) :
    fd6551_set_on priv k =
      .ok (k.outcomes.headD 0,
        { priv with brightness := chip.brightness_levels },
        { k with
          writes := k.writes ++ [(s, 0x01)]
          outcomes := k.outcomes.tail }) ∧
    status_value chip.brightness_levels chip.brightness_levels % 256 = 0x01 := by
  have hl : chip.brightness_levels = 8 := supported_levels chip hchip
  have hpl : priv.chip_data.brightness_levels = 8 := by rw [hpriv]; exact hl
  rw [hl]
  refine ⟨?_, by decide⟩
  simp only [fd6551_set_on, fd6551_set_status, fd6551_write, hs, hpl]
  rfl

/-- C18 (as amended) from brightness 0 and from brightness 3 on the `fd650`. -/
theorem set_on_full_witness :
    (fd6551_set_on (probe_priv fd650 0x24) quiet).map
        (fun r => (r.2.1.brightness, r.2.2.writes)) = .ok (8, [(0x24, 0x01)]) ∧
    (fd6551_set_on { fd650_ready with brightness := 3 } quiet =
      .ok (quiet.outcomes.headD 0,
        { ({ fd650_ready with brightness := 3 } : fd6551_priv) with
          brightness := fd650.brightness_levels },
        { quiet with
          writes := quiet.writes ++ [(0x24, 0x01)]
          outcomes := quiet.outcomes.tail }) ∧
    status_value fd650.brightness_levels fd650.brightness_levels % 256 = 0x01) :=
  ⟨by decide,
   set_on_full fd650 (by decide) { fd650_ready with brightness := 3 } rfl 0x24 rfl quiet⟩

/-- The text the loop of `chars_store` leaves in memory, on populated slots and characters
up to `0x7F`: each round stores the raw character of its position. -/
theorem chars_store_loop_text (buf : List Nat) (count : Nat) :
    ∀ (n idx : Nat) (priv : fd6551_priv) (k : Kernel),
      idx + n ≤ FD6551_MAX_DIGITS →
      (∀ i, idx ≤ i → i < idx + n → chars_store_ch buf count i ≤ 0x7F) →
      (∀ i, idx ≤ i → i < idx + n → ∃ a, priv.i2c_client_digits.getD i none = some a) →
      ∃ priv1 k1, chars_store_loop buf count n idx priv k = .ok (priv1, k1) ∧
        priv1.text = (List.range' idx n).foldl
          (fun t i => t.set i (chars_store_ch buf count i)) priv.text := by
  intro n
  induction n with
  | zero =>
    intro idx priv k _ _ _
    exact ⟨priv, k, rfl, rfl⟩
  | succ n ih =>
    intro idx priv k hn hch hdig
    have hidx : idx < FD6551_MAX_DIGITS := by omega
    obtain ⟨a, ha⟩ := hdig idx (Nat.le_refl _) (by omega)
    have hround := chars_store_round_ok buf count idx priv k a hidx
      (hch idx (Nat.le_refl _) (by omega)) ha
    obtain ⟨priv1, k1, hrun, ht⟩ :=
      ih (idx + 1) { priv with text := priv.text.set idx (chars_store_ch buf count idx) }
        { writes := k.writes ++ [(a, chars_store_bits buf count idx)]
          outcomes := k.outcomes.tail
          errlog := k.errlog ++ char_write_msg idx (k.outcomes.headD 0)
          unregistered := k.unregistered }
        (by omega) (fun i h1 h2 => hch i (by omega) (by omega))
        (fun i h1 h2 => hdig i (by omega) (by omega))
    refine ⟨priv1, k1, ?_, ?_⟩
    · simp only [chars_store_loop, hround]
      exact hrun
    · rw [ht]
      simp only [List.range'_succ, List.foldl_cons]

/-- The text `chars_store` leaves in memory on four populated digit slots and characters
up to `0x7F`, whatever the transfers return: position `i` holds the raw character of the
input when `i < count` and a space otherwise. -/
theorem chars_store_text (priv : fd6551_priv) (hd : priv.chip_data.digits = 4)
    (ds : List Nat) (hlen : ds.length = 4) (hds : priv.i2c_client_digits = ds.map some)
    (htext : priv.text.length = 4)
    (buf : List Nat) (count : Nat) (k : Kernel)
    (hbuf : ∀ i, i < 4 → chars_store_ch buf count i ≤ 0x7F) :
    ∃ priv1 k1, chars_store priv buf count k = .ok ((count : Int), priv1, k1) ∧
      priv1.text = (List.range 4).map (chars_store_ch buf count) := by
  have haddr : ∀ i, i < 4 → priv.i2c_client_digits.getD i none = some (ds.getD i 0) := by
    intro i hi
    rw [hds]
    simp only [List.getD_eq_getElem?_getD, List.getElem?_map]
    rw [List.getElem?_eq_getElem (by omega)]
    rfl
  obtain ⟨priv1, k1, hrun, ht⟩ :=
    chars_store_loop_text buf count 4 0 priv k (by decide)
      (fun i _ hi => hbuf i (by omega)) (fun i _ hi => ⟨_, haddr i (by omega)⟩)
  refine ⟨priv1, k1, ?_, ?_⟩
  · simp only [chars_store, hd, hrun]
  · obtain ⟨a, b, c, d, habcd⟩ := length_four _ htext
    rw [ht, habcd]
    rfl

theorem mem_of_getD_some {l : List (Option Nat)} {i a : Nat}
    (h : l.getD i none = some a) : some a ∈ l := by
  rw [List.getD_eq_getElem?_getD] at h
  cases hg : l[i]? with
  | none => rw [hg] at h; cases h
  | some x =>
    rw [hg] at h
    simp only [Option.getD_some] at h
    subst h
    exact List.getElem?_mem hg

/-- Whenever a round of `chars_store` completes, it has changed the text only and has
added one write, to the device of its digit slot. -/
theorem chars_store_round_frame (buf : List Nat) (count idx : Nat) (priv p1 : fd6551_priv)
    (k k1 : Kernel) (h : chars_store_round buf count idx priv k = .ok (p1, k1)) :
    p1 = { priv with text := priv.text.set idx (chars_store_ch buf count idx) } ∧
    ∃ a v, some a ∈ priv.i2c_client_digits ∧ k1.writes = k.writes ++ [(a, v)] := by
  unfold chars_store_round at h
  by_cases hidx : idx < FD6551_MAX_DIGITS
  · simp only [hidx, if_true] at h
    generalize ascii_lookup (chars_index (chars_store_ch buf count idx)) = r at h
    cases r with
    | error f => cases h
    | ok bits =>
      cases hc : priv.i2c_client_digits.getD idx none with
      | none =>
        simp only [hc, fd6551_write] at h
        cases h
      | some a =>
        simp only [hc, fd6551_write] at h
        injection h with h
        injection h with hp hk
        refine ⟨hp.symm, a, bits % 256, mem_of_getD_some hc, ?_⟩
        rw [← hk]
        split <;> rfl
  · simp only [hidx, if_false] at h
    cases h

/-- Whenever the loop of `chars_store` completes, it has changed the text only, and every
write it has added went to the device of a digit slot. -/
theorem chars_store_loop_frame (buf : List Nat) (count : Nat) :
    ∀ (n idx : Nat) (priv p1 : fd6551_priv) (k k1 : Kernel),
      chars_store_loop buf count n idx priv k = .ok (p1, k1) →
      (∃ t, p1 = { priv with text := t }) ∧
      ∃ new, k1.writes = k.writes ++ new ∧
        ∀ w ∈ new, some w.1 ∈ priv.i2c_client_digits := by
  intro n
  induction n with
  | zero =>
    intro idx priv p1 k k1 h
    simp only [chars_store_loop] at h
    injection h with h
    injection h with hp hk
    subst hp hk
    exact ⟨⟨priv.text, rfl⟩, [], by simp, by simp⟩
  | succ n ih =>
    intro idx priv p1 k k1 h
    simp only [chars_store_loop] at h
    cases hr : chars_store_round buf count idx priv k with
    | error f => rw [hr] at h; cases h
    | ok r =>
      obtain ⟨p2, k2⟩ := r
      rw [hr] at h
      simp only at h
      obtain ⟨hp2, a, v, ha, hw2⟩ := chars_store_round_frame buf count idx priv p2 k k2 hr
      obtain ⟨⟨t, ht⟩, new, hw, hnew⟩ := ih (idx + 1) p2 p1 k2 k1 h
      refine ⟨⟨t, ?_⟩, (a, v) :: new, ?_, ?_⟩
      · rw [ht, hp2]
      · rw [hw, hw2]
        simp
      · intro w hmem
        rcases List.mem_cons.mp hmem with hw1 | hw1
        · rw [hw1]
          exact ha
        · have := hnew w hw1
          rw [hp2] at this
          exact this

/-- Bit `j` of the value `fd6551_led_brightness_set` computes is set only if it was set
before or `j` is the bit number of the LED; this holds for every bitmask and bit number. -/
theorem icon_value_testBit_imp (m bit : Nat) (lit : Bool) (j : Nat)
    (h : (icon_value m (bit_mask bit) lit).testBit j = true) : m.testBit j = true ∨ j = bit := by
  simp only [icon_value, Nat.testBit_lor, Bool.or_eq_true, Nat.testBit_land,
    Bool.and_eq_true] at h
  rcases h with ⟨hm, _⟩ | hmask
  · left
    rw [show UINT_MOD = 2 ^ 32 from rfl, Nat.testBit_mod_two_pow] at hm
    simp only [Bool.and_eq_true] at hm
    exact hm.2
  · right
    cases lit with
    | false => simp at hmask
    | true =>
      simp only [if_true, bit_mask] at hmask
      rw [show UINT_MOD = 2 ^ 32 from rfl, Nat.testBit_mod_two_pow, Nat.one_shiftLeft,
        Nat.testBit_two_pow] at hmask
      simp only [Bool.and_eq_true, decide_eq_true_eq] at hmask
      exact hmask.2.symm

/-- Whenever `fd6551_remove` completes, it has changed at most the brightness, which it
sets to 0 when the status client is there, and every byte it has written is 0. -/
theorem remove_effect (priv p1 : fd6551_priv) (k k1 : Kernel)
    (h : fd6551_remove priv k = .ok (p1, k1)) :
    (p1 = priv ∨ p1 = { priv with brightness := 0 }) ∧
    ∃ new, k1.writes = k.writes ++ new ∧ ∀ w ∈ new, w.2 = 0 := by
  have hdig : ∀ (p : fd6551_priv) (k0 k2 : Kernel),
      fd6551_remove_digits p FD6551_MAX_DIGITS 0 k0 = .ok k2 →
      ∃ new, k2.writes = k0.writes ++ new ∧ ∀ w ∈ new, w.2 = 0 := by
    intro p k0 k2 hrun
    obtain ⟨k3, hrun3, hw, _, _⟩ := remove_digits_spec p FD6551_MAX_DIGITS 0 k0
    rw [hrun3] at hrun
    injection hrun with hrun
    subst hrun
    refine ⟨_, hw, ?_⟩
    intro w hmem
    obtain ⟨a, _, rfl⟩ := List.mem_map.mp hmem
    rfl
  obtain ⟨chip, leds, st, ic, dg, br, im, tx⟩ := priv
  cases st with
  | none =>
    cases ic with
    | none =>
      simp only [fd6551_remove] at h
      cases hr : fd6551_remove_digits
          { chip_data := chip, leds := leds, i2c_client_status := none,
            i2c_client_icon_set := none, i2c_client_digits := dg, brightness := br,
            icon_set_bitmask := im, text := tx } FD6551_MAX_DIGITS 0 k with
      | error f => rw [hr] at h; cases h
      | ok k3 =>
        rw [hr] at h
        injection h with h
        injection h with hp hk
        subst hk
        exact ⟨Or.inl hp.symm, hdig _ _ _ hr⟩
    | some c =>
      simp only [fd6551_remove, fd6551_reset_leds, fd6551_write, Nat.zero_mod] at h
      cases hr : fd6551_remove_digits
          { chip_data := chip, leds := leds, i2c_client_status := none,
            i2c_client_icon_set := some c, i2c_client_digits := dg, brightness := br,
            icon_set_bitmask := im, text := tx } FD6551_MAX_DIGITS 0
          { writes := k.writes ++ [(c, 0)], outcomes := k.outcomes.tail, errlog := k.errlog,
            unregistered := k.unregistered ++ [c] } with
      | error f => rw [hr] at h; cases h
      | ok k3 =>
        rw [hr] at h
        injection h with h
        injection h with hp hk
        subst hk
        obtain ⟨new, hw, hnew⟩ := hdig _ _ _ hr
        refine ⟨Or.inl hp.symm, (c, 0) :: new, ?_, ?_⟩
        · rw [hw]
          simp
        · intro w hmem
          rcases List.mem_cons.mp hmem with hw1 | hw1
          · rw [hw1]
          · exact hnew w hw1
  | some s =>
    cases ic with
    | none =>
      simp only [fd6551_remove, fd6551_set_off, fd6551_set_status, fd6551_write,
        status_value, if_true, FD6551_DISPLAY_OFF, Nat.zero_mod] at h
      cases hr : fd6551_remove_digits
          { chip_data := chip, leds := leds, i2c_client_status := some s,
            i2c_client_icon_set := none, i2c_client_digits := dg, brightness := 0,
            icon_set_bitmask := im, text := tx } FD6551_MAX_DIGITS 0
          { writes := k.writes ++ [(s, 0)], outcomes := k.outcomes.tail, errlog := k.errlog,
            unregistered := k.unregistered } with
      | error f => rw [hr] at h; cases h
      | ok k3 =>
        rw [hr] at h
        injection h with h
        injection h with hp hk
        subst hk
        obtain ⟨new, hw, hnew⟩ := hdig _ _ _ hr
        refine ⟨Or.inr hp.symm, (s, 0) :: new, ?_, ?_⟩
        · rw [hw]
          simp
        · intro w hmem
          rcases List.mem_cons.mp hmem with hw1 | hw1
          · rw [hw1]
          · exact hnew w hw1
    | some c =>
      simp only [fd6551_remove, fd6551_set_off, fd6551_set_status, fd6551_write,
        status_value, if_true, FD6551_DISPLAY_OFF, Nat.zero_mod, fd6551_reset_leds] at h
      cases hr : fd6551_remove_digits
          { chip_data := chip, leds := leds, i2c_client_status := some s,
            i2c_client_icon_set := some c, i2c_client_digits := dg, brightness := 0,
            icon_set_bitmask := im, text := tx } FD6551_MAX_DIGITS 0
          { writes := k.writes ++ [(s, 0)] ++ [(c, 0)], outcomes := k.outcomes.tail.tail,
            errlog := k.errlog, unregistered := k.unregistered ++ [c] } with
      | error f => rw [hr] at h; cases h
      | ok k3 =>
        rw [hr] at h
        injection h with h
        injection h with hp hk
        subst hk
        obtain ⟨new, hw, hnew⟩ := hdig _ _ _ hr
        refine ⟨Or.inr hp.symm, (s, 0) :: (c, 0) :: new, ?_, ?_⟩
        · rw [hw]
          simp
        · intro w hmem
          rcases List.mem_cons.mp hmem with hw1 | hw1
          · rw [hw1]
          · rcases List.mem_cons.mp hw1 with hw2 | hw2
            · rw [hw2]
            · exact hnew w hw2

/-- What one completed operation can do to the state and to the bus: the wiring (chip,
LEDs, clients) stays; the brightness stays or ends within `brightness_levels`; a bit of
the icon bitmask is set afterwards only if it was set before or belongs to a registered
LED; and every write added carries 0, or is a status write of the resulting brightness, or
goes to a digit client or to the client of an LED. -/
theorem step_effect (nleds : Nat) (op : Op) (p p1 : fd6551_priv) (k k1 : Kernel)
    (h : step nleds op p k = .ok (p1, k1)) :
    (p1.chip_data = p.chip_data ∧ p1.leds = p.leds ∧
      p1.i2c_client_status = p.i2c_client_status ∧
      p1.i2c_client_icon_set = p.i2c_client_icon_set ∧
      p1.i2c_client_digits = p.i2c_client_digits) ∧
    (p1.brightness = p.brightness ∨ p1.brightness ≤ p.chip_data.brightness_levels) ∧
    (∀ j, p1.icon_set_bitmask.testBit j = true →
      p.icon_set_bitmask.testBit j = true ∨
        ∃ i l, i < nleds ∧ p.leds[i]? = some l ∧ l.bit = j) ∧
    ∃ new, k1.writes = k.writes ++ new ∧
      ∀ w ∈ new,
        w.2 = 0 ∨
        (p.i2c_client_status = some w.1 ∧
          w.2 = status_value p.chip_data.brightness_levels p1.brightness % 256 ∧
          p1.brightness ≤ p.chip_data.brightness_levels) ∨
        some w.1 ∈ p.i2c_client_digits ∨
        (∃ l ∈ p.leds, l.i2c_client = some w.1) := by
  cases op with
  | set_icon led v =>
    simp only [step] at h
    by_cases hl : led < nleds
    · simp only [hl, if_true] at h
      cases hg : p.leds[led]? with
      | none => rw [hg] at h; cases h
      | some l =>
        rw [hg] at h
        by_cases hsh : l.bit < BITS_PER_LONG
        · simp only [fd6551_led_brightness_set, fd6551_write, BIT_of_lt l.bit hsh] at h
          cases hc : l.i2c_client with
          | none => rw [hc] at h; cases h
          | some c =>
            rw [hc] at h
            injection h with h
            injection h with hp hk
            subst hp hk
            refine ⟨⟨rfl, rfl, rfl, rfl, rfl⟩, Or.inl rfl, ?_, _, rfl, ?_⟩
            · intro j hj
              rcases icon_value_testBit_imp _ _ _ j hj with hm | hb
              · exact Or.inl hm
              · exact Or.inr ⟨led, l, hl, hg, hb.symm⟩
            · intro w hmem
              rw [List.mem_singleton] at hmem
              subst hmem
              exact Or.inr (Or.inr (Or.inr ⟨l, List.getElem?_mem hg, hc⟩))
        · simp only [fd6551_led_brightness_set, BIT, hsh, if_false] at h
          cases h
    · simp only [hl, if_false] at h
      injection h with h
      injection h with hp hk
      subst hp hk
      exact ⟨⟨rfl, rfl, rfl, rfl, rfl⟩, Or.inl rfl, fun j hj => Or.inl hj, [], by simp,
        by simp⟩
  | set_text buf count =>
    simp only [step, chars_store] at h
    cases hr : chars_store_loop buf count p.chip_data.digits 0 p k with
    | error f => rw [hr] at h; cases h
    | ok r =>
      obtain ⟨p2, k2⟩ := r
      rw [hr] at h
      injection h with h
      injection h with hp hk
      subst hp hk
      obtain ⟨⟨t, ht⟩, new, hw, hnew⟩ := chars_store_loop_frame buf count _ _ _ _ _ _ hr
      subst ht
      exact ⟨⟨rfl, rfl, rfl, rfl, rfl⟩, Or.inl rfl, fun j hj => Or.inl hj, new, hw,
        fun w hmem => Or.inr (Or.inr (Or.inl (hnew w hmem)))⟩
  | set_brightness parsed count =>
    simp only [step, brightness_store] at h
    cases parsed with
    | error ret =>
      simp only at h
      injection h with h
      injection h with hp hk
      subst hp hk
      exact ⟨⟨rfl, rfl, rfl, rfl, rfl⟩, Or.inl rfl, fun j hj => Or.inl hj, [], by simp,
        by simp⟩
    | ok level =>
      simp only [fd6551_set_status, fd6551_write] at h
      cases hs : p.i2c_client_status with
      | none => rw [hs] at h; cases h
      | some s =>
        rw [hs] at h
        injection h with h
        injection h with hp hk
        subst hp hk
        refine ⟨⟨rfl, rfl, hs.symm ▸ rfl, rfl, rfl⟩, Or.inr (Nat.min_le_right _ _),
          fun j hj => Or.inl hj, _, rfl, ?_⟩
        intro w hmem
        rw [List.mem_singleton] at hmem
        subst hmem
        exact Or.inr (Or.inl ⟨rfl, rfl, Nat.min_le_right _ _⟩)
  | power_on =>
    simp only [step, fd6551_set_on, fd6551_set_status, fd6551_write] at h
    cases hs : p.i2c_client_status with
    | none => rw [hs] at h; cases h
    | some s =>
      rw [hs] at h
      injection h with h
      injection h with hp hk
      subst hp hk
      refine ⟨⟨rfl, rfl, hs.symm ▸ rfl, rfl, rfl⟩, Or.inr (Nat.le_refl _),
        fun j hj => Or.inl hj, _, rfl, ?_⟩
      intro w hmem
      rw [List.mem_singleton] at hmem
      subst hmem
      exact Or.inr (Or.inl ⟨rfl, rfl, Nat.le_refl _⟩)
  | power_off =>
    simp only [step, fd6551_set_off, fd6551_set_status, fd6551_write] at h
    cases hs : p.i2c_client_status with
    | none => rw [hs] at h; cases h
    | some s =>
      rw [hs] at h
      injection h with h
      injection h with hp hk
      subst hp hk
      refine ⟨⟨rfl, rfl, hs.symm ▸ rfl, rfl, rfl⟩, Or.inr (Nat.zero_le _),
        fun j hj => Or.inl hj, _, rfl, ?_⟩
      intro w hmem
      rw [List.mem_singleton] at hmem
      subst hmem
      exact Or.inr (Or.inl ⟨rfl, rfl, Nat.zero_le _⟩)
  | teardown =>
    simp only [step] at h
    obtain ⟨hp, new, hw, hnew⟩ := remove_effect p p1 k k1 h
    refine ⟨?_, ?_, ?_, new, hw, fun w hmem => Or.inl (hnew w hmem)⟩
    · rcases hp with hp | hp <;> subst hp <;> exact ⟨rfl, rfl, rfl, rfl, rfl⟩
    · rcases hp with hp | hp <;> subst hp
      · exact Or.inl rfl
      · exact Or.inr (Nat.zero_le _)
    · intro j hj
      rcases hp with hp | hp <;> subst hp <;> exact Or.inl hj

/-- What a completed sequence of operations can do to the state and to the bus; the
statement of `step_effect` carried along the sequence. -/
theorem run_effect (nleds : Nat) :
    ∀ (ops : List Op) (p p1 : fd6551_priv) (k k1 : Kernel),
      run nleds ops p k = .ok (p1, k1) →
      (p1.chip_data = p.chip_data ∧ p1.leds = p.leds ∧
        p1.i2c_client_status = p.i2c_client_status ∧
        p1.i2c_client_icon_set = p.i2c_client_icon_set ∧
        p1.i2c_client_digits = p.i2c_client_digits) ∧
      (p1.brightness = p.brightness ∨ p1.brightness ≤ p.chip_data.brightness_levels) ∧
      (∀ j, p1.icon_set_bitmask.testBit j = true →
        p.icon_set_bitmask.testBit j = true ∨
          ∃ i l, i < nleds ∧ p.leds[i]? = some l ∧ l.bit = j) ∧
      ∃ new, k1.writes = k.writes ++ new ∧
        ∀ w ∈ new,
          w.2 = 0 ∨
          (p.i2c_client_status = some w.1 ∧
            ∃ b, b ≤ p.chip_data.brightness_levels ∧
              w.2 = status_value p.chip_data.brightness_levels b % 256) ∨
          some w.1 ∈ p.i2c_client_digits ∨
          (∃ l ∈ p.leds, l.i2c_client = some w.1) := by
  intro ops
  induction ops with
  | nil =>
    intro p p1 k k1 h
    simp only [run] at h
    injection h with h
    injection h with hp hk
    subst hp hk
    exact ⟨⟨rfl, rfl, rfl, rfl, rfl⟩, Or.inl rfl, fun j hj => Or.inl hj, [], by simp,
      by simp⟩
  | cons op ops ih =>
    intro p p1 k k1 h
    simp only [run] at h
    cases hs : step nleds op p k with
    | error f => rw [hs] at h; cases h
    | ok r =>
      obtain ⟨p2, k2⟩ := r
      rw [hs] at h
      simp only at h
      obtain ⟨⟨hc2, hl2, hst2, hic2, hdg2⟩, hb2, hm2, new2, hw2, hn2⟩ :=
        step_effect nleds op p p2 k k2 hs
      obtain ⟨⟨hc1, hl1, hst1, hic1, hdg1⟩, hb1, hm1, new1, hw1, hn1⟩ := ih p2 p1 k2 k1 h
      refine ⟨⟨hc1.trans hc2, hl1.trans hl2, hst1.trans hst2, hic1.trans hic2,
        hdg1.trans hdg2⟩, ?_, ?_, new2 ++ new1, ?_, ?_⟩
      · rcases hb1 with hb1 | hb1
        · rcases hb2 with hb2 | hb2
          · exact Or.inl (hb1.trans hb2)
          · exact Or.inr (hb1 ▸ hb2)
        · exact Or.inr (hc2 ▸ hb1)
      · intro j hj
        rcases hm1 j hj with hm | ⟨i, l, hi, hg, hbit⟩
        · exact hm2 j hm
        · exact Or.inr ⟨i, l, hi, hl2 ▸ hg, hbit⟩
      · rw [hw1, hw2, List.append_assoc]
      · intro w hmem
        rcases List.mem_append.mp hmem with hmem | hmem
        · rcases hn2 w hmem with h0 | ⟨hst, hv, hle⟩ | hd | hled
          · exact Or.inl h0
          · exact Or.inr (Or.inl ⟨hst, p2.brightness, hle, hv⟩)
          · exact Or.inr (Or.inr (Or.inl hd))
          · exact Or.inr (Or.inr (Or.inr hled))
        · rcases hn1 w hmem with h0 | ⟨hst, b, hle, hv⟩ | hd | hled
          · exact Or.inl h0
          · exact Or.inr (Or.inl ⟨hst2 ▸ hst, b, hc2 ▸ hle, hc2 ▸ hv⟩)
          · exact Or.inr (Or.inr (Or.inl (hdg2 ▸ hd)))
          · exact Or.inr (Or.inr (Or.inr (hl2 ▸ hled)))

/-- The part of C11 that holds: from a state whose icon bitmask is 0, after any sequence
of operations that completes (`set_icon` on any registered LED with any intensity,
`set_text`, `set_brightness`, `power_on`, `power_off`, also `teardown`), every bit set in
the icon bitmask is the bit number of a registered LED; the LEDs themselves are never
changed. A `set_icon` on an LED whose bit number is `BITS_PER_LONG` or more does not
complete: its shift is undefined. -/
theorem icon_bits_configured (nleds : Nat) (ops : List Op) (priv0 priv : fd6551_priv)
    (k0 k : Kernel) (h0 : priv0.icon_set_bitmask = 0)
    (hrun : run nleds ops priv0 k0 = .ok (priv, k)) :
    priv.leds = priv0.leds ∧
    ∀ j, priv.icon_set_bitmask.testBit j = true →
      ∃ i l, i < nleds ∧ priv.leds[i]? = some l ∧ l.bit = j := by
  obtain ⟨⟨_, hl, _, _, _⟩, _, hm, _⟩ := run_effect nleds ops priv0 priv k0 k hrun
  refine ⟨hl, ?_⟩
  intro j hj
  rcases hm j hj with hz | ⟨i, l, hi, hg, hb⟩
  · rw [h0, Nat.zero_testBit] at hz
    cases hz
  · exact ⟨i, l, hi, hl ▸ hg, hb⟩

/-- The invariant of `icon_bits_configured` on the `fd6551` that `fd6551_probe` sets up for
one icon on bit 3: after the icon is switched on, a text is shown and the display is
powered off, the bitmask is `0x08`. -/
theorem icon_bits_configured_witness :
    ((fd6551_probe 0x24 (some one_icon) (some fd6551) true (fun a => .ok a) (fun _ => 0)
        quiet).map (fun r => (r.1, r.2.1)) = .ok (0, some fd6551_ready) ∧
      fd6551_ready.icon_set_bitmask = 0 ∧
      (run 1 [.set_icon 0 255, .set_text [0x41] 1, .power_off] fd6551_ready quiet).map
        (fun r => r.1.icon_set_bitmask) = .ok 0x08) ∧
    (({ fd6551_ready with
          brightness := 0, icon_set_bitmask := 8, text := [0x41, 0x20, 0x20, 0x20] } :
        fd6551_priv).leds = fd6551_ready.leds ∧
    ∀ j, ({ fd6551_ready with
          brightness := 0, icon_set_bitmask := 8, text := [0x41, 0x20, 0x20, 0x20] } :
        fd6551_priv).icon_set_bitmask.testBit j = true →
      ∃ i l, i < 1 ∧
        ({ fd6551_ready with
            brightness := 0, icon_set_bitmask := 8, text := [0x41, 0x20, 0x20, 0x20] } :
          fd6551_priv).leds[i]? = some l ∧ l.bit = j) :=
  ⟨by decide,
   icon_bits_configured 1 [.set_icon 0 255, .set_text [0x41] 1, .power_off] fd6551_ready
    { fd6551_ready with
      brightness := 0, icon_set_bitmask := 8, text := [0x41, 0x20, 0x20, 0x20] }
    quiet
    { quiet with
      writes := [(0x33, 8), (0x34, 0x77), (0x35, 0), (0x36, 0), (0x37, 0), (0x24, 0)] }
    rfl (by decide)⟩

/-- C11: the invariant breaks on a configured icon whose bit index is 67.
`fd6551_probe` accepts the icon and registers the LED on bit 67 with an empty bitmask;
switching that icon on makes `fd6551_led_brightness_set` evaluate `BIT(67)`, a shift of an
`unsigned long` by more than its width, which is undefined: no state follows in which the
set bits could be told to be bit indices of configured icons. -/
theorem set_icon_shift_overrun :
    (fd6551_probe 0x24 (some icon_bit67) (some fd6551) true (fun a => .ok a) (fun _ => 0)
        quiet).map (fun r => (r.1, r.2.1)) = .ok (0, some fd6551_bit67) ∧
    fd6551_bit67.leds[0]? = some { bit := 67, i2c_client := some 0x33 } ∧
    fd6551_bit67.icon_set_bitmask = 0 ∧
    ¬ (67 < BITS_PER_LONG) ∧
    BIT 67 = .error (.shift_overrun 67) ∧
    fd6551_led_brightness_set fd6551_bit67 { bit := 67, i2c_client := some 0x33 } 255 quiet =
      .error (.shift_overrun 67) ∧
    run 1 [.set_icon 0 255] fd6551_bit67 quiet = .error (.shift_overrun 67) := by
  decide

/-- C20: on a supported chip, from a state with brightness 0 whose status address is the
address of no digit client and of no LED client, after any sequence of operations that
completes (`power_on`, `power_off`, `set_brightness` with any level, `set_text`,
`set_icon`, `teardown`), the status client is the same, brightness is at most
`brightness_levels`, the unsigned subtraction `brightness_levels - brightness` of the
status computation does not wrap, and every byte the sequence has written to the status
address is at most `0x0F`. -/
theorem brightness_in_range (chip : fd6551_chip) (hchip : supported chip)
    (nleds : Nat) (ops : List Op) (priv0 priv : fd6551_priv) (k0 k : Kernel)
    (hpriv : priv0.chip_data = chip) (hb0 : priv0.brightness = 0)
    (s : Nat) (hs : priv0.i2c_client_status = some s)
    (hdig : some s ∉ priv0.i2c_client_digits)
    (hleds : ∀ l ∈ priv0.leds, l.i2c_client ≠ some s)
    (hrun : run nleds ops priv0 k0 = .ok (priv, k)) :
    priv.i2c_client_status = some s ∧
    priv.brightness ≤ chip.brightness_levels ∧
    u32_sub chip.brightness_levels priv.brightness =
      chip.brightness_levels - priv.brightness ∧
    status_value chip.brightness_levels priv.brightness % 256 ≤ 0x0F ∧
    ∃ new, k.writes = k0.writes ++ new ∧ ∀ w ∈ new, w.1 = s → w.2 ≤ 0x0F := by
  have hl : chip.brightness_levels = 8 := supported_levels chip hchip
  have hpl : priv0.chip_data.brightness_levels = 8 := by rw [hpriv]; exact hl
  obtain ⟨⟨_, _, hst, _, _⟩, hb, _, new, hw, hnew⟩ :=
    run_effect nleds ops priv0 priv k0 k hrun
  have hle : priv.brightness ≤ 8 := by
    rcases hb with hb | hb
    · rw [hb, hb0]
      decide
    · rw [hpl] at hb
      exact hb
  have hsub : ∀ b, b ≤ 8 → u32_sub 8 b = 8 - b := by decide
  have hbyte : ∀ b, b ≤ 8 → status_value 8 b % 256 ≤ 0x0F := by decide
  rw [hl]
  refine ⟨hst.trans hs, hle, hsub _ hle, hbyte _ hle, new, hw, ?_⟩
  intro w hmem hws
  rcases hnew w hmem with h0 | ⟨_, b, hble, hv⟩ | hd | ⟨l, hlmem, hlc⟩
  · rw [h0]
    decide
  · rw [hpl] at hble hv
    rw [hv]
    exact hbyte b hble
  · rw [hws] at hd
    exact absurd hd hdig
  · rw [hws] at hlc
    exact absurd hlc (hleds l hlmem)

/-- C20 on the freshly initialised `fd6551`: power on, brightness 100 (stored as 8), the
icon, brightness 3; the status address sees `0x01`, `0x01` and `0x0B`. -/
theorem brightness_in_range_witness :
    (run 1 [.power_on, .set_brightness (.ok 100) 3, .set_icon 0 1, .set_brightness (.ok 3) 1]
        fd6551_fresh quiet).map (fun r => (r.1.brightness, r.2.writes)) =
      .ok (3, [(0x24, 0x01), (0x24, 0x01), (0x33, 0x08), (0x24, 0x0B)]) ∧
    (({ fd6551_ready with brightness := 3, icon_set_bitmask := 8 } :
        fd6551_priv).i2c_client_status = some 0x24 ∧
    ({ fd6551_ready with brightness := 3, icon_set_bitmask := 8 } : fd6551_priv).brightness ≤
      fd6551.brightness_levels ∧
    u32_sub fd6551.brightness_levels
        ({ fd6551_ready with brightness := 3, icon_set_bitmask := 8 } : fd6551_priv).brightness =
      fd6551.brightness_levels -
        ({ fd6551_ready with brightness := 3, icon_set_bitmask := 8 } : fd6551_priv).brightness ∧
    status_value fd6551.brightness_levels
        ({ fd6551_ready with brightness := 3, icon_set_bitmask := 8 } : fd6551_priv).brightness %
      256 ≤ 0x0F ∧
    ∃ new,
      ({ quiet with
          writes := [(0x24, 0x01), (0x24, 0x01), (0x33, 0x08), (0x24, 0x0B)] } : Kernel).writes =
        quiet.writes ++ new ∧
      ∀ w ∈ new, w.1 = 0x24 → w.2 ≤ 0x0F) :=
  ⟨by decide,
   brightness_in_range fd6551 (by decide) 1
    [.power_on, .set_brightness (.ok 100) 3, .set_icon 0 1, .set_brightness (.ok 3) 1]
    fd6551_fresh { fd6551_ready with brightness := 3, icon_set_bitmask := 8 } quiet
    { quiet with writes := [(0x24, 0x01), (0x24, 0x01), (0x33, 0x08), (0x24, 0x0B)] }
    rfl rfl 0x24 rfl (by decide) (by decide) (by decide)⟩

/-- C12 as stated fails: with `WXYZ` stored, `chars_store` of the two characters `AB`
leaves `AB` followed by two spaces in the stored text; the trailing `YZ` is gone, also
from the bytes `chars_show` copies out. -/
theorem chars_store_overwrites_tail :
    fd650_wxyz.text = [0x57, 0x58, 0x59, 0x5A] ∧
    (chars_store fd650_wxyz [0x41, 0x42] 2 quiet).map (fun r => r.2.1.text) =
      .ok [0x41, 0x42, 0x20, 0x20] ∧
    (chars_store fd650_wxyz [0x41, 0x42] 2 quiet).map (fun r => chars_show_buf r.2.1) =
      .ok [0x41, 0x42, 0x20, 0x20] ∧
    ¬ ((chars_store fd650_wxyz [0x41, 0x42] 2 quiet).map (fun r => r.2.1.text.drop 2) =
      .ok (fd650_wxyz.text.drop 2)) := by
  decide

/-- C12 (as amended): when `chars_store` is given fewer characters than the chip has
digits, it overwrites the stored text at the trailing positions `count .. digits - 1` with
the space character `0x20` (the character it also encodes for those digits); what was
stored there before is lost. The positions below `count` hold the raw input. -/
theorem chars_store_pads_text (chip : fd6551_chip) (hchip : supported chip)
    (priv : fd6551_priv) (hpriv : priv.chip_data = chip)
    (ds : List Nat) (hlen : ds.length = chip.digits)
    (hds : priv.i2c_client_digits = ds.map some)
    (htext : priv.text.length = FD6551_MAX_DIGITS)
    (buf : List Nat) (count : Nat) (k : Kernel)
    (hbuf : ∀ i, i < min count chip.digits → buf.getD i 0 ≤ 0x7F)
    (hcount : count < chip.digits) :
    ∃ priv1 k1, chars_store priv buf count k = .ok ((count : Int), priv1, k1) ∧
      (∀ i, count ≤ i → i < chip.digits → priv1.text.getD i 0 = 0x20) ∧
      (∀ i, i < count → priv1.text.getD i 0 = buf.getD i 0) ∧
      priv1.text.length = chip.digits := by
  have hd : chip.digits = 4 := supported_digits chip hchip
  rw [hd] at hbuf hlen hcount ⊢
  have hch : ∀ i, i < 4 → chars_store_ch buf count i ≤ 0x7F := by
    intro i hi
    unfold chars_store_ch
    split
    · have := hbuf i (by omega)
      omega
    · decide
  obtain ⟨priv1, k1, hrun, ht⟩ :=
    chars_store_text priv (by rw [hpriv]; exact hd) ds hlen hds htext buf count k hch
  refine ⟨priv1, k1, hrun, ?_, ?_, ?_⟩
  · intro i hci hi
    rw [ht, List.getD_eq_getElem?_getD, List.getElem?_map, List.getElem?_range hi]
    simp only [Option.map_some', Option.getD_some, chars_store_ch]
    rw [if_neg (by omega)]
    rfl
  · intro i hi
    have hi4 : i < 4 := by omega
    rw [ht, List.getD_eq_getElem?_getD, List.getElem?_map, List.getElem?_range hi4]
    simp only [Option.map_some', Option.getD_some, chars_store_ch]
    rw [if_pos hi]
    exact Nat.mod_eq_of_lt (by have := hbuf i (by omega); omega)
  · rw [ht]
    rfl

/-- C12 (as amended) for `AB` written over `WXYZ` on the `fd650`. -/
theorem chars_store_pads_text_witness :
    ∃ priv1 k1, chars_store fd650_wxyz [0x41, 0x42] 2 quiet = .ok (((2 : Nat) : Int), priv1, k1) ∧
      (∀ i, 2 ≤ i → i < fd650.digits → priv1.text.getD i 0 = 0x20) ∧
      (∀ i, i < 2 → priv1.text.getD i 0 = [0x41, 0x42].getD i 0) ∧
      priv1.text.length = fd650.digits :=
  chars_store_pads_text fd650 (by decide) fd650_wxyz rfl [0x34, 0x35, 0x36, 0x37] rfl rfl rfl
    [0x41, 0x42] 2 quiet (by decide) (by decide)

/-- C19 at the input `A`, `0x80` on a ready `fd650` whose first transfer fails: the
character `0x80` makes `chars_store` read `ascii_to_seven[96]`, past the end of the table;
no result is defined, while the same call with `0x7F` in place of `0x80` goes through all
four digits and keeps the raw characters. -/
theorem chars_store_batch_overrun :
    chars_store fd650_ready [0x41, 0x80] 2 flaky = .error (.table_overrun 96) ∧
    (chars_store fd650_ready [0x41, 0x7F] 2 flaky).map
        (fun r => (r.1, r.2.1.text, r.2.2.writes, r.2.2.errlog)) =
      .ok (2, [0x41, 0x7F, 0x20, 0x20],
        [(0x34, 0x77), (0x35, 0x00), (0x36, 0x00), (0x37, 0x00)], [.char_write 0 (-5)]) := by
  decide

/-- Whenever `chars_store` completes, the state it returns is the old one with a new
text. -/
theorem chars_store_frame (priv p1 : fd6551_priv) (buf : List Nat) (count : Nat) (r : Int)
    (k k1 : Kernel) (h : chars_store priv buf count k = .ok (r, p1, k1)) :
    p1 = { priv with text := p1.text } := by
  simp only [chars_store] at h
  cases hr : chars_store_loop buf count priv.chip_data.digits 0 priv k with
  | error f => rw [hr] at h; cases h
  | ok res =>
    obtain ⟨p2, k2⟩ := res
    rw [hr] at h
    injection h with h
    have hp : p2 = p1 := (Prod.mk.inj (Prod.mk.inj h).2).1
    subst hp
    obtain ⟨⟨t, ht⟩, _⟩ := chars_store_loop_frame buf count _ _ _ _ _ _ hr
    rw [ht]

/-- The part of C19 that holds: on a supported chip with populated slots, for every input
whose used characters are at most `0x7F` and every pattern of transfer results,
`chars_store` attempts the write for each digit, and the text it leaves is the one it
leaves when every transfer succeeds: the raw characters, then spaces. -/
theorem chars_store_keeps_going (chip : fd6551_chip) (hchip : supported chip)
    (priv : fd6551_priv) (hpriv : priv.chip_data = chip)
    (ds : List Nat) (hlen : ds.length = chip.digits)
    (hds : priv.i2c_client_digits = ds.map some)
    (htext : priv.text.length = FD6551_MAX_DIGITS)
    (buf : List Nat) (count : Nat) (k : Kernel)
    (hbuf : ∀ i, i < min count chip.digits → buf.getD i 0 ≤ 0x7F) :
    ∃ priv1 k1 priv2 k2,
      chars_store priv buf count k = .ok ((count : Int), priv1, k1) ∧
      chars_store priv buf count { k with outcomes := [] } = .ok ((count : Int), priv2, k2) ∧
      k1.writes = k2.writes ∧
      k1.writes.length = k.writes.length + chip.digits ∧
      priv1 = priv2 ∧
      (∀ i, i < min count chip.digits → priv1.text.getD i 0 = buf.getD i 0) := by
  have hd : chip.digits = 4 := supported_digits chip hchip
  rw [hd] at hbuf hlen ⊢
  have hpd : priv.chip_data.digits = 4 := by rw [hpriv]; exact hd
  have hch : ∀ i, i < 4 → chars_store_ch buf count i ≤ 0x7F := by
    intro i hi
    unfold chars_store_ch
    split
    · have := hbuf i (by omega)
      omega
    · decide
  obtain ⟨priv1, k1, hrun1, ht1⟩ :=
    chars_store_text priv hpd ds hlen hds htext buf count k hch
  obtain ⟨priv2, k2, hrun2, ht2⟩ :=
    chars_store_text priv hpd ds hlen hds htext buf count { k with outcomes := [] } hch
  obtain ⟨p1, q1, hr1, _, _, _, _, _, _, hw1, _, _, _⟩ :=
    chars_store_ok priv hpd ds hlen hds buf count k hch
  obtain ⟨p2, q2, hr2, _, _, _, _, _, _, hw2, _, _, _⟩ :=
    chars_store_ok priv hpd ds hlen hds buf count { k with outcomes := [] } hch
  rw [hrun1] at hr1
  rw [hrun2] at hr2
  injection hr1 with hr1
  injection hr2 with hr2
  have hp1 : priv1 = p1 := (Prod.mk.inj (Prod.mk.inj hr1).2).1
  have hk1 : k1 = q1 := (Prod.mk.inj (Prod.mk.inj hr1).2).2
  have hp2 : priv2 = p2 := (Prod.mk.inj (Prod.mk.inj hr2).2).1
  have hk2 : k2 = q2 := (Prod.mk.inj (Prod.mk.inj hr2).2).2
  subst hp1 hk1 hp2 hk2
  have hf1 := chars_store_frame priv priv1 buf count _ k k1 hrun1
  have hf2 := chars_store_frame priv priv2 buf count _ _ k2 hrun2
  refine ⟨priv1, k1, priv2, k2, hrun1, hrun2, ?_, ?_, ?_, ?_⟩
  · rw [hw1, hw2]
  · rw [hw1]
    simp
  · rw [hf1, hf2, ht1, ht2]
  · intro i hi
    have hi4 : i < 4 := by omega
    rw [ht1, List.getD_eq_getElem?_getD, List.getElem?_map, List.getElem?_range hi4]
    simp only [Option.map_some', Option.getD_some, chars_store_ch]
    rw [if_pos (by omega)]
    exact Nat.mod_eq_of_lt (by have := hbuf i hi; omega)

/-- The loop of `fd6551_init_leds` over children whose `bit` property reads `bits` and
whose registration succeeds: it returns 0 and stores one LED per child, from slot `idx`
on, with the bit as read, whatever its value; the slots below `idx` stay as they are. -/
theorem init_leds_loop_accepts (c : Nat) :
    ∀ (bits : List Nat) (idx : Nat) (priv : fd6551_priv) (k : Kernel),
      idx + bits.length ≤ FD6551_MAX_LEDS → idx + bits.length ≤ priv.leds.length →
      ∃ priv1,
        fd6551_init_leds_loop c (bits.map (fun b => { bit := .ok b, register := 0 })) idx priv k =
          .ok (0, priv1, k) ∧
        (∀ j, j < idx → priv1.leds[j]? = priv.leds[j]?) ∧
        (∀ i, i < bits.length →
          priv1.leds[idx + i]? =
            some { bit := bits.getD i 0 % UINT_MOD, i2c_client := some c }) ∧
        priv1.icon_set_bitmask = priv.icon_set_bitmask ∧
        priv1.i2c_client_icon_set = priv.i2c_client_icon_set ∧
        priv1.leds.length = priv.leds.length := by
  intro bits
  induction bits with
  | nil =>
    intro idx priv k _ _
    exact ⟨priv, rfl, fun _ _ => rfl, fun i hi => absurd hi (Nat.not_lt_zero i), rfl, rfl, rfl⟩
  | cons b bits ih =>
    intro idx priv k hn hlen
    simp only [List.length_cons] at hn hlen
    have hidx : idx < FD6551_MAX_LEDS := by omega
    obtain ⟨priv1, hrun, hlow, hnew, hmask, hicon, hl⟩ :=
      ih (idx + 1)
        { priv with
          leds := priv.leds.set idx { bit := b % UINT_MOD, i2c_client := some c } } k
        (by omega) (by simp only [List.length_set]; omega)
    simp only [List.length_set] at hl
    refine ⟨priv1, ?_, ?_, ?_, hmask, hicon, hl⟩
    · simp only [List.map_cons, fd6551_init_leds_loop, hidx, if_true]
      simp only [show ¬ ((0 : Int) < 0) from by decide, if_false]
      exact hrun
    · intro j hj
      rw [hlow j (by omega)]
      exact List.getElem?_set_ne (by omega)
    · intro i hi
      cases i with
      | zero =>
        rw [Nat.add_zero, hlow idx (by omega)]
        simp only [List.getD_cons_zero]
        exact List.getElem?_set_self (by omega)
      | succ i =>
        simp only [List.length_cons] at hi
        have := hnew i (by omega)
        rw [show idx + (i + 1) = idx + 1 + i from by omega, this]
        simp only [List.getD_cons_succ]

/-- C13 as stated fails: a mapping with the bit index 9, and a mapping with the bit index
3 twice, both pass `fd6551_init_leds` with result 0, and `fd6551_probe` returns 0 with the
LEDs registered on those bits: the device instance is created. -/
theorem probe_accepts_malformed_icons :
    (fd6551_init_leds (fun a => .ok a) (probe_priv fd6551 0x24) icon_bit9.children fd6551
        quiet).map (fun r => r.1) = .ok 0 ∧
    (fd6551_probe 0x24 (some icon_bit9) (some fd6551) true (fun a => .ok a) (fun _ => 0)
        quiet).map (fun r => (r.1, r.2.1.map (fun p => p.leds.take 1))) =
      .ok (0, some [{ bit := 9, i2c_client := some 0x33 }]) ∧
    (fd6551_init_leds (fun a => .ok a) (probe_priv fd6551 0x24) icons_twice.children fd6551
        quiet).map (fun r => r.1) = .ok 0 ∧
    (fd6551_probe 0x24 (some icons_twice) (some fd6551) true (fun a => .ok a) (fun _ => 0)
        quiet).map (fun r => (r.1, r.2.1.map (fun p => p.leds.take 2))) =
      .ok (0, some [{ bit := 3, i2c_client := some 0x33 }, { bit := 3, i2c_client := some 0x33 }]) := by
  decide

/-- C13 (as amended): `fd6551_init_leds` does not validate the bit indices of the icon
mapping. For every list of one to eight icons whose `bit` properties are readable and
whose LED registrations succeed, it returns 0 and binds LED `i` to the bit index given for
icon `i`, whatever the values are (8 and above, or repeated, included). The one mapping it
rejects as a configuration error is a mapping with more than eight icons: `-EINVAL`. -/
theorem init_leds_accepts_any_bits (ancillary : Nat → Except Int Nat) (priv : fd6551_priv)
    (chip_data : fd6551_chip) (k : Kernel) (c : Nat) (bits : List Nat)
    (hicon : priv.chip_data.has_icon_set = true)
    (hn : 0 < bits.length) (hn8 : bits.length ≤ FD6551_MAX_LEDS)
    (hanc : ancillary chip_data.addr_icons = .ok c)
    (hleds : priv.leds.length = FD6551_MAX_LEDS) :
    (∃ priv1 k1,
      fd6551_init_leds ancillary priv (bits.map (fun b => { bit := .ok b, register := 0 }))
        chip_data k = .ok (0, priv1, k1) ∧
      priv1.i2c_client_icon_set = some c ∧
      ∀ i, i < bits.length →
        priv1.leds[i]? = some { bit := bits.getD i 0 % UINT_MOD, i2c_client := some c }) ∧
    (∀ children : List of_child, FD6551_MAX_LEDS < children.length →
      fd6551_init_leds ancillary priv children chip_data k =
        .ok (-EINVAL, priv, dev_err k .too_many_children)) := by
  constructor
  · obtain ⟨priv1, hrun, _, hnew, _, hic, _⟩ :=
      init_leds_loop_accepts c bits 0 { priv with i2c_client_icon_set := some c }
        { k with writes := k.writes ++ [(c, 0)], outcomes := k.outcomes.tail }
        (by omega) (by show 0 + bits.length ≤ priv.leds.length; omega)
    refine ⟨priv1, { k with writes := k.writes ++ [(c, 0)], outcomes := k.outcomes.tail },
      ?_, hic, ?_⟩
    · have hlen0 : ¬ bits.length = 0 := by omega
      have hlen8 : ¬ bits.length > FD6551_MAX_LEDS := by omega
      simp only [fd6551_init_leds, hicon, Bool.not_true, Bool.false_eq_true, if_false,
        List.length_map, hlen0, hlen8, hanc, fd6551_reset_leds, fd6551_write, Nat.zero_mod]
      exact hrun
    · intro i hi
      have := hnew i hi
      rw [Nat.zero_add] at this
      exact this
  · intro children hc
    have hlen0 : ¬ children.length = 0 := by omega
    have hlen8 : children.length > FD6551_MAX_LEDS := hc
    simp only [fd6551_init_leds, hicon, Bool.not_true, Bool.false_eq_true, if_false, hlen0,
      hlen8, if_true]

/-- C13 (as amended) on the `fd6551` for the mapping with bit indices 9, 3 and 3. -/
theorem init_leds_accepts_any_bits_witness :
    (∃ priv1 k1,
      fd6551_init_leds (fun a => .ok a) (probe_priv fd6551 0x24)
        ([9, 3, 3].map (fun b => { bit := .ok b, register := 0 })) fd6551 quiet =
        .ok (0, priv1, k1) ∧
      priv1.i2c_client_icon_set = some 0x33 ∧
      ∀ i, i < [9, 3, 3].length →
        priv1.leds[i]? =
          some { bit := [9, 3, 3].getD i 0 % UINT_MOD, i2c_client := some 0x33 }) ∧
    (∀ children : List of_child, FD6551_MAX_LEDS < children.length →
      fd6551_init_leds (fun a => .ok a) (probe_priv fd6551 0x24) children fd6551 quiet =
        .ok (-EINVAL, probe_priv fd6551 0x24, dev_err quiet .too_many_children)) :=
  init_leds_accepts_any_bits (fun a => .ok a) (probe_priv fd6551 0x24) fd6551 quiet 0x33
    [9, 3, 3] rfl (by decide) (by decide) rfl rfl

end Fd6551
